import Mathlib

/-!
Verification of the two-level TLB simulator in `src/tlb.c`.

The C module keeps two fully-associative arrays of translation entries
(`tlb_l1`, `tlb_l2`), six cumulative counters, and two per-level logical LRU
clocks (`lru_tick`, `lru_tick2`).  External collaborators (the simulated
clock `increment_time`, the page-table resolver `page_table_translate`, and
the write-back sink `write_back_tlb_entry`) are modelled as observable
traces carried inside the state: `time` accumulates the charged latencies,
`writebacks` records every physical address handed to the sink in order,
and `ptCalls` records every resolver invocation.  The resolver itself is a
function parameter `pt`.

Machine integers are modelled as `Nat`; the bit manipulations in the
address helpers use `Nat` shifts and masks, which agree with the C
`uint64_t` arithmetic on all inputs that fit the machine word.
-/

namespace TLB

/-- Access kind, from `op_t` (the module only distinguishes `OP_WRITE`). -/
inductive Op where
  | OP_READ : Op
  | OP_WRITE : Op
deriving DecidableEq, Repr

/-- One slot of a TLB level, from `tlb_entry_t` in `src/tlb.c`. -/
structure TLBEntry where
  valid : Bool
  dirty : Bool
  last_access : Nat
  virtual_page_number : Nat
  physical_page_number : Nat
deriving DecidableEq, Repr

/-- The all-zero entry produced by `memset(..., 0, ...)` in `tlb_init`. -/
def emptyEntry : TLBEntry := ⟨false, false, 0, 0, 0⟩

instance : Inhabited TLBEntry := ⟨emptyEntry⟩

/-- The compile-time constants consumed from the (not included) headers
`constants.h` / `tlb.h`: page-size bit width, the two level capacities and
the two access latencies.  They are parameters of the whole development. -/
structure Config where
  PAGE_SIZE_BITS : Nat
  TLB_L1_SIZE : Nat
  TLB_L2_SIZE : Nat
  TLB_L1_LATENCY_NS : Nat
  TLB_L2_LATENCY_NS : Nat
deriving DecidableEq, Repr

/-- Modelled from the spec: `PAGE_OFFSET_MASK` is defined in the missing
`constants.h`; per spec section 4.1 the offset extractor keeps exactly the
low `PAGE_SIZE_BITS` bits of an address, so the mask is `2 ^ PAGE_SIZE_BITS - 1`. -/
def PAGE_OFFSET_MASK (cfg : Config) : Nat := 2 ^ cfg.PAGE_SIZE_BITS - 1

/-- `va_to_vpn` from `src/tlb.c`: the virtual address shifted right by the
page-size bit width. -/
def va_to_vpn (cfg : Config) (va : Nat) : Nat := va >>> cfg.PAGE_SIZE_BITS

/-- `va_offset` from `src/tlb.c`: the low `PAGE_SIZE_BITS` bits of the
virtual address. -/
def va_offset (cfg : Config) (va : Nat) : Nat := va &&& PAGE_OFFSET_MASK cfg

/-- `pa_to_ppn` from `src/tlb.c`: the physical address shifted right by the
page-size bit width. -/
def pa_to_ppn (cfg : Config) (pa : Nat) : Nat := pa >>> cfg.PAGE_SIZE_BITS

/-- `compose_pa` from `src/tlb.c`: `(ppn << PAGE_SIZE_BITS) | off`. -/
def compose_pa (cfg : Config) (ppn off : Nat) : Nat :=
  (ppn <<< cfg.PAGE_SIZE_BITS) ||| off

/-- Read slot `i` of a level; out-of-range reads return the zero entry
(the C code never reads out of range). -/
def getE : List TLBEntry → Nat → TLBEntry
  | [], _ => emptyEntry
  | e :: _, 0 => e
  | _ :: rest, i + 1 => getE rest i

/-- Write slot `i` of a level; out-of-range writes are dropped
(the C code never writes out of range). -/
def setE : List TLBEntry → Nat → TLBEntry → List TLBEntry
  | [], _, _ => []
  | _ :: rest, 0, a => a :: rest
  | e :: rest, i + 1, a => e :: setE rest i a

/-- The loop condition of `l1_find` / `l2_find`: a valid entry holding `vpn`. -/
def entryMatches (vpn : Nat) (e : TLBEntry) : Bool :=
  e.valid && (e.virtual_page_number == vpn)

/-- `l1_find` / `l2_find` from `src/tlb.c`: index of the first valid entry
whose VPN matches, or `none` on a miss. -/
def tlb_find : List TLBEntry → Nat → Option Nat
  | [], _ => none
  | e :: rest, vpn =>
    if entryMatches vpn e then some 0
    else (tlb_find rest vpn).map (fun n => n + 1)

/-- The first loop of `l1_choose_victim` / `l2_choose_victim`: index of the
first invalid slot, if any. -/
def find_invalid : List TLBEntry → Option Nat
  | [] => none
  | e :: rest =>
    if e.valid then (find_invalid rest).map (fun n => n + 1)
    else some 0

/-- The second loop of `l1_choose_victim` / `l2_choose_victim`: running
first-minimum scan over `last_access`, carrying the next index `i`, the
current `victim` index and the current `best` value. -/
def lruScan : List TLBEntry → Nat → Nat → Nat → Nat
  | [], _, victim, _ => victim
  | e :: rest, i, victim, best =>
    if e.last_access < best then lruScan rest (i + 1) i e.last_access
    else lruScan rest (i + 1) victim best

/-- `l1_choose_victim` / `l2_choose_victim` from `src/tlb.c`: prefer the
first invalid slot, otherwise the first slot attaining the minimal
`last_access`. -/
def choose_victim (l : List TLBEntry) : Nat :=
  match find_invalid l with
  | some i => i
  | none =>
    match l with
    | [] => 0
    | e :: rest => lruScan rest 1 0 e.last_access

/-- The field resets performed at the end of `l1_evict_entry`,
`l2_evict_entry` and the invalidation loops: only `valid`, `dirty` and
`last_access` are cleared, VPN and PPN are left as they were. -/
def resetE (e : TLBEntry) : TLBEntry :=
  { e with valid := false, dirty := false, last_access := 0 }

/-- The whole mutable state of `src/tlb.c`, plus the observable traces of
the three external collaborators. -/
structure TLBState where
  tlb_l1 : List TLBEntry
  tlb_l2 : List TLBEntry
  tlb_l1_hits : Nat
  tlb_l1_misses : Nat
  tlb_l1_invalidations : Nat
  tlb_l2_hits : Nat
  tlb_l2_misses : Nat
  tlb_l2_invalidations : Nat
  lru_tick : Nat
  lru_tick2 : Nat
  time : Nat
  writebacks : List Nat
  ptCalls : List (Nat × Op)
deriving DecidableEq, Repr

/-- `l2_evict_entry` from `src/tlb.c`: if the slot is valid and dirty, hand
`compose_pa(ppn, 0)` to the write-back sink; then clear `valid`, `dirty`
and `last_access` of the slot. -/
def l2_evict_entry (cfg : Config) (s : TLBState) (idx : Nat) : TLBState :=
  let e := getE s.tlb_l2 idx
  let s1 :=
    if e.valid && e.dirty then
      { s with writebacks := s.writebacks ++ [compose_pa cfg e.physical_page_number 0] }
    else s
  { s1 with tlb_l2 := setE s1.tlb_l2 idx (resetE e) }

/-- `l2_insert` from `src/tlb.c`: update in place when the VPN is already
present (OR-ing the dirty flag), otherwise evict the chosen victim and
write the fresh entry; either way stamp `last_access` with the
pre-incremented `lru_tick2`. -/
def l2_insert (cfg : Config) (s : TLBState) (vpn ppn : Nat) (dirty : Bool) : TLBState :=
  match tlb_find s.tlb_l2 vpn with
  | some idx =>
    let e := getE s.tlb_l2 idx
    { s with
      tlb_l2 := setE s.tlb_l2 idx
        { e with physical_page_number := ppn, dirty := e.dirty || dirty,
                 last_access := s.lru_tick2 + 1, valid := true },
      lru_tick2 := s.lru_tick2 + 1 }
  | none =>
    let victim := choose_victim s.tlb_l2
    let s1 := l2_evict_entry cfg s victim
    { s1 with
      tlb_l2 := setE s1.tlb_l2 victim ⟨true, dirty, s1.lru_tick2 + 1, vpn, ppn⟩,
      lru_tick2 := s1.lru_tick2 + 1 }

/-- `l1_evict_entry` from `src/tlb.c`: a valid dirty L1 slot is written
back into L2 via `l2_insert(vpn, ppn, true)`; then `valid`, `dirty` and
`last_access` of the slot are cleared. -/
def l1_evict_entry (cfg : Config) (s : TLBState) (idx : Nat) : TLBState :=
  let e := getE s.tlb_l1 idx
  let s1 :=
    if e.valid && e.dirty then
      l2_insert cfg s e.virtual_page_number e.physical_page_number true
    else s
  { s1 with tlb_l1 := setE s1.tlb_l1 idx (resetE e) }

/-- `l1_insert` from `src/tlb.c`. -/
def l1_insert (cfg : Config) (s : TLBState) (vpn ppn : Nat) (dirty : Bool) : TLBState :=
  match tlb_find s.tlb_l1 vpn with
  | some idx =>
    let e := getE s.tlb_l1 idx
    { s with
      tlb_l1 := setE s.tlb_l1 idx
        { e with physical_page_number := ppn, dirty := e.dirty || dirty,
                 last_access := s.lru_tick + 1, valid := true },
      lru_tick := s.lru_tick + 1 }
  | none =>
    let victim := choose_victim s.tlb_l1
    let s1 := l1_evict_entry cfg s victim
    { s1 with
      tlb_l1 := setE s1.tlb_l1 victim ⟨true, dirty, s1.lru_tick + 1, vpn, ppn⟩,
      lru_tick := s1.lru_tick + 1 }

/-- `tlb_init` from `src/tlb.c`: both levels zeroed, all counters and both
LRU clocks reset; the collaborator traces start empty. -/
def tlb_init (cfg : Config) : TLBState :=
  { tlb_l1 := List.replicate cfg.TLB_L1_SIZE emptyEntry,
    tlb_l2 := List.replicate cfg.TLB_L2_SIZE emptyEntry,
    tlb_l1_hits := 0, tlb_l1_misses := 0, tlb_l1_invalidations := 0,
    tlb_l2_hits := 0, tlb_l2_misses := 0, tlb_l2_invalidations := 0,
    lru_tick := 0, lru_tick2 := 0,
    time := 0, writebacks := [], ptCalls := [] }

/-- `tlb_translate` from `src/tlb.c`.  `pt` is the external page-table
resolver `page_table_translate`; every call to it is recorded in
`ptCalls`.  Returns the physical address together with the next state. -/
def tlb_translate (cfg : Config) (pt : Nat → Op → Nat) (s : TLBState)
    (va : Nat) (op : Op) : Nat × TLBState :=
  let s0 := { s with time := s.time + cfg.TLB_L1_LATENCY_NS }
  let vpn := va_to_vpn cfg va
  let off := va_offset cfg va
  match tlb_find s0.tlb_l1 vpn with
  | some idx1 =>
    let e := getE s0.tlb_l1 idx1
    let e1 := { e with last_access := s0.lru_tick + 1,
                       dirty := if op = Op.OP_WRITE then true else e.dirty }
    (compose_pa cfg e.physical_page_number off,
     { s0 with tlb_l1_hits := s0.tlb_l1_hits + 1,
               lru_tick := s0.lru_tick + 1,
               tlb_l1 := setE s0.tlb_l1 idx1 e1 })
  | none =>
    let s1 := { s0 with tlb_l1_misses := s0.tlb_l1_misses + 1,
                        time := s0.time + cfg.TLB_L2_LATENCY_NS }
    match tlb_find s1.tlb_l2 vpn with
    | some idx2 =>
      let e := getE s1.tlb_l2 idx2
      let e1 := { e with last_access := s1.lru_tick2 + 1,
                         dirty := if op = Op.OP_WRITE then true else e.dirty }
      let s2 := { s1 with tlb_l2_hits := s1.tlb_l2_hits + 1,
                          lru_tick2 := s1.lru_tick2 + 1,
                          tlb_l2 := setE s1.tlb_l2 idx2 e1 }
      let s3 := l1_insert cfg s2 vpn e.physical_page_number (op == Op.OP_WRITE)
      (compose_pa cfg e.physical_page_number off, s3)
    | none =>
      let pa := pt va op
      let s2 := { s1 with tlb_l2_misses := s1.tlb_l2_misses + 1,
                          ptCalls := s1.ptCalls ++ [(va, op)] }
      let ppn := pa_to_ppn cfg pa
      let s3 := l1_insert cfg s2 vpn ppn (op == Op.OP_WRITE)
      let s4 := l2_insert cfg s3 vpn ppn (op == Op.OP_WRITE)
      (pa, s4)

/-- The L1 loop of `tlb_invalidate` in `src/tlb.c`: handle the first valid
L1 match (a dirty copy cascades into L2 via `l2_insert` first), reset the
slot and count the invalidation; the `break` makes at most one slot react. -/
def tlb_invalidate_l1 (cfg : Config) (s : TLBState) (vpn : Nat) : TLBState :=
  match tlb_find s.tlb_l1 vpn with
  | none => s
  | some i =>
    let e := getE s.tlb_l1 i
    let sa :=
      if e.dirty then
        l2_insert cfg s e.virtual_page_number e.physical_page_number true
      else s
    { sa with tlb_l1 := setE sa.tlb_l1 i (resetE e),
              tlb_l1_invalidations := sa.tlb_l1_invalidations + 1 }

/-- The L2 loop of `tlb_invalidate` in `src/tlb.c`: handle the first valid
L2 match (a dirty copy goes to the write-back sink), reset the slot and
count the invalidation. -/
def tlb_invalidate_l2 (cfg : Config) (s : TLBState) (vpn : Nat) : TLBState :=
  match tlb_find s.tlb_l2 vpn with
  | none => s
  | some i =>
    let e := getE s.tlb_l2 i
    let sa :=
      if e.dirty then
        { s with writebacks := s.writebacks ++ [compose_pa cfg e.physical_page_number 0] }
      else s
    { sa with tlb_l2 := setE sa.tlb_l2 i (resetE e),
              tlb_l2_invalidations := sa.tlb_l2_invalidations + 1 }

/-- `tlb_invalidate` from `src/tlb.c`: charge the fixed maintenance cost,
then run the L1 loop and afterwards the L2 loop. -/
def tlb_invalidate (cfg : Config) (s : TLBState) (vpn : Nat) : TLBState :=
  tlb_invalidate_l2 cfg
    (tlb_invalidate_l1 cfg
      { s with time := s.time + (cfg.TLB_L1_LATENCY_NS + cfg.TLB_L2_LATENCY_NS) }
      vpn)
    vpn

/-- One public operation of the module. -/
inductive TLBOp where
  | translateOp (va : Nat) (op : Op) : TLBOp
  | invalidateOp (vpn : Nat) : TLBOp
deriving DecidableEq, Repr

/-- Run one public operation. -/
def runOp (cfg : Config) (pt : Nat → Op → Nat) (s : TLBState) : TLBOp → TLBState
  | TLBOp.translateOp va op => (tlb_translate cfg pt s va op).2
  | TLBOp.invalidateOp vpn => tlb_invalidate cfg s vpn

/-- Run a sequence of public operations. -/
def runOps (cfg : Config) (pt : Nat → Op → Nat) (s : TLBState)
    (ops : List TLBOp) : TLBState :=
  ops.foldl (runOp cfg pt) s

/-- States reachable from the initialized state by public operations. -/
def Reachable (cfg : Config) (pt : Nat → Op → Nat) (s : TLBState) : Prop :=
  ∃ ops : List TLBOp, s = runOps cfg pt (tlb_init cfg) ops

/-- An identity page-table resolver, used to build concrete runs. -/
def ptId : Nat → Op → Nat := fun va _ => va

/-! ### Basic lemmas about slot access -/

@[simp]
theorem length_setE (l : List TLBEntry) (i : Nat) (a : TLBEntry) :
    (setE l i a).length = l.length := by
  induction l generalizing i with
  | nil => rfl
  | cons e rest ih =>
    cases i with
    | zero => rfl
    | succ i => simp [setE, ih]

theorem setE_oob (l : List TLBEntry) (i : Nat) (a : TLBEntry)
    (h : l.length ≤ i) : setE l i a = l := by
  induction l generalizing i with
  | nil => rfl
  | cons e rest ih =>
    cases i with
    | zero => exact absurd h (by simp)
    | succ i => simp only [setE]; rw [ih i (by simpa using h)]

theorem getE_setE_eq (l : List TLBEntry) (i : Nat) (a : TLBEntry)
    (h : i < l.length) : getE (setE l i a) i = a := by
  induction l generalizing i with
  | nil => simp at h
  | cons e rest ih =>
    cases i with
    | zero => rfl
    | succ i => exact ih i (by simpa using h)

theorem getE_setE_ne (l : List TLBEntry) (i j : Nat) (a : TLBEntry)
    (h : j ≠ i) : getE (setE l i a) j = getE l j := by
  induction l generalizing i j with
  | nil => rfl
  | cons e rest ih =>
    cases i with
    | zero =>
      cases j with
      | zero => exact absurd rfl h
      | succ j => rfl
    | succ i =>
      cases j with
      | zero => rfl
      | succ j => exact ih i j (fun hc => h (by rw [hc]))

@[simp]
theorem getE_replicate (n i : Nat) :
    getE (List.replicate n emptyEntry) i = emptyEntry := by
  induction n generalizing i with
  | zero => cases i <;> rfl
  | succ n ih =>
    cases i with
    | zero => rfl
    | succ i => simpa [List.replicate, getE] using ih i

@[simp]
theorem entryMatches_empty (v : Nat) : entryMatches v emptyEntry = false := rfl

/-! ### Lemmas about `tlb_find` -/

theorem tlb_find_some (l : List TLBEntry) (v i : Nat)
    (h : tlb_find l v = some i) :
    i < l.length ∧ entryMatches v (getE l i) = true := by
  induction l generalizing i with
  | nil => simp [tlb_find] at h
  | cons e rest ih =>
    by_cases hm : entryMatches v e
    · simp [tlb_find, hm] at h
      subst h
      exact ⟨by simp, hm⟩
    · simp [tlb_find, hm] at h
      obtain ⟨j, hj, rfl⟩ := h
      obtain ⟨h1, h2⟩ := ih j hj
      exact ⟨by simpa using h1, h2⟩

theorem tlb_find_none_iff (l : List TLBEntry) (v : Nat) :
    tlb_find l v = none ↔ ∀ j, entryMatches v (getE l j) = false := by
  induction l with
  | nil =>
    simp only [tlb_find, true_iff]
    intro j; cases j <;> rfl
  | cons e rest ih =>
    cases hm : entryMatches v e with
    | true =>
      simp only [tlb_find, hm, if_true]
      constructor
      · intro h; exact absurd h (by simp)
      · intro h; exact absurd (h 0) (by simp [getE, hm])
    | false =>
      simp only [tlb_find, hm, Bool.false_eq_true, if_false, Option.map_eq_none', ih]
      constructor
      · intro h j
        cases j with
        | zero => simpa [getE] using hm
        | succ j => exact h j
      · intro h j; exact h (j + 1)

theorem tlb_find_eq_some_of_unique (l : List TLBEntry) (v i : Nat)
    (hi : i < l.length) (hm : entryMatches v (getE l i) = true)
    (ho : ∀ j, j ≠ i → entryMatches v (getE l j) = false) :
    tlb_find l v = some i := by
  induction l generalizing i with
  | nil => simp at hi
  | cons e rest ih =>
    cases i with
    | zero =>
      have he : entryMatches v e = true := by simpa [getE] using hm
      simp [tlb_find, he]
    | succ i =>
      have he : entryMatches v e = false := by
        have := ho 0 (by simp)
        simpa [getE] using this
      simp only [tlb_find, he, Bool.false_eq_true, if_false]
      rw [ih i (by simpa using hi) (by simpa [getE] using hm)
        (fun j hj => by simpa [getE] using ho (j + 1) (by simpa using hj))]
      rfl

/-! ### Lemmas about `find_invalid` -/

theorem find_invalid_some (l : List TLBEntry) (i : Nat)
    (h : find_invalid l = some i) :
    i < l.length ∧ (getE l i).valid = false ∧ ∀ j, j < i → (getE l j).valid = true := by
  induction l generalizing i with
  | nil => simp [find_invalid] at h
  | cons e rest ih =>
    by_cases hv : e.valid
    · simp [find_invalid, hv] at h
      obtain ⟨j, hj, rfl⟩ := h
      obtain ⟨h1, h2, h3⟩ := ih j hj
      refine ⟨by simpa using h1, h2, ?_⟩
      intro k hk
      cases k with
      | zero => simpa [getE] using hv
      | succ k => exact h3 k (by omega)
    · simp [find_invalid, hv] at h
      subst h
      exact ⟨by simp, by simpa [getE] using hv, by omega⟩

theorem find_invalid_none (l : List TLBEntry)
    (h : find_invalid l = none) : ∀ j, j < l.length → (getE l j).valid = true := by
  induction l with
  | nil => simp
  | cons e rest ih =>
    by_cases hv : e.valid
    · simp only [find_invalid, hv, if_true, Option.map_eq_none'] at h
      intro j hj
      cases j with
      | zero => simpa [getE] using hv
      | succ j => exact ih h j (by simpa using hj)
    · simp [find_invalid, hv] at h

/-! ### Lemmas about victim selection -/

theorem lruScan_spec (rest : List TLBEntry) (i victim best : Nat) :
    (lruScan rest i victim best = victim ∧
      ∀ k, k < rest.length → best ≤ (getE rest k).last_access) ∨
    (∃ k, k < rest.length ∧ lruScan rest i victim best = i + k ∧
      (getE rest k).last_access < best ∧
      (∀ m, m < rest.length → (getE rest k).last_access ≤ (getE rest m).last_access) ∧
      (∀ m, m < k → (getE rest k).last_access < (getE rest m).last_access)) := by
  induction rest generalizing i victim best with
  | nil => left; constructor <;> simp [lruScan]
  | cons e rest ih =>
    by_cases hlt : e.last_access < best
    · simp only [lruScan, hlt, if_true]
      rcases ih (i + 1) i e.last_access with ⟨hr, hall⟩ | ⟨k, hk, hr, hb, hmin, hfirst⟩
      · right
        refine ⟨0, by simp, by omega, hlt, ?_, by omega⟩
        intro m hm
        cases m with
        | zero => simp [getE]
        | succ m => exact hall m (by simpa using hm)
      · right
        refine ⟨k + 1, by simpa using hk, by omega,
          (by show (getE rest k).last_access < best; omega), ?_, ?_⟩
        · intro m hm
          cases m with
          | zero => simpa [getE] using Nat.le_of_lt hb
          | succ m => exact hmin m (by simpa using hm)
        · intro m hm
          cases m with
          | zero => simpa [getE] using hb
          | succ m => exact hfirst m (by omega)
    · simp only [lruScan, hlt, if_false]
      rcases ih (i + 1) victim best with ⟨hr, hall⟩ | ⟨k, hk, hr, hb, hmin, hfirst⟩
      · left
        refine ⟨hr, ?_⟩
        intro m hm
        cases m with
        | zero => simpa [getE] using Nat.le_of_not_lt hlt
        | succ m => exact hall m (by simpa using hm)
      · right
        refine ⟨k + 1, by simpa using hk, by omega, hb, ?_, ?_⟩
        · intro m hm
          cases m with
          | zero =>
            have : best ≤ e.last_access := Nat.le_of_not_lt hlt
            simp only [getE]; omega
          | succ m => exact hmin m (by simpa using hm)
        · intro m hm
          cases m with
          | zero =>
            have : best ≤ e.last_access := Nat.le_of_not_lt hlt
            simp only [getE]; omega
          | succ m => exact hfirst m (by omega)

/-- When no slot is free, `choose_victim` picks the first slot attaining
the minimal `last_access` (ties broken by lowest index). -/
theorem choose_victim_lru (l : List TLBEntry) (hne : l ≠ [])
    (hfull : find_invalid l = none) :
    choose_victim l < l.length ∧
    (∀ j, j < l.length →
      (getE l (choose_victim l)).last_access ≤ (getE l j).last_access) ∧
    (∀ j, j < choose_victim l →
      (getE l (choose_victim l)).last_access < (getE l j).last_access) := by
  cases l with
  | nil => exact absurd rfl hne
  | cons e rest =>
    simp only [choose_victim, hfull]
    rcases lruScan_spec rest 1 0 e.last_access with ⟨hr, hall⟩ | ⟨k, hk, hr, hb, hmin, hfirst⟩
    · rw [hr]
      refine ⟨by simp, ?_, by omega⟩
      intro j hj
      cases j with
      | zero => exact Nat.le_refl _
      | succ j => simpa [getE] using hall j (by simpa using hj)
    · rw [hr]
      have hgk : getE (e :: rest) (1 + k) = getE rest k := by
        have : 1 + k = k + 1 := by omega
        rw [this]; rfl
      refine ⟨by simpa using (by omega : 1 + k < rest.length + 1), ?_, ?_⟩
      · intro j hj
        rw [hgk]
        cases j with
        | zero => simpa [getE] using Nat.le_of_lt hb
        | succ j => simpa [getE] using hmin j (by simpa using hj)
      · intro j hj
        rw [hgk]
        cases j with
        | zero => simpa [getE] using hb
        | succ j => exact hfirst j (by omega)

/-- `choose_victim` prefers the lowest-index invalid slot. -/
theorem choose_victim_invalid (l : List TLBEntry) (i : Nat)
    (h : find_invalid l = some i) : choose_victim l = i := by
  simp [choose_victim, h]

theorem choose_victim_lt (l : List TLBEntry) (hne : l ≠ []) :
    choose_victim l < l.length := by
  cases hf : find_invalid l with
  | some i =>
    rw [choose_victim_invalid l i hf]
    exact (find_invalid_some l i hf).1
  | none => exact (choose_victim_lru l hne hf).1

/-! ### Frame lemmas for the state operations -/

/-- The six statistics counters, bundled. -/
def ctrs (s : TLBState) : Nat × Nat × Nat × Nat × Nat × Nat :=
  (s.tlb_l1_hits, s.tlb_l1_misses, s.tlb_l1_invalidations,
   s.tlb_l2_hits, s.tlb_l2_misses, s.tlb_l2_invalidations)

theorem l2_evict_entry_eq (cfg : Config) (s : TLBState) (idx : Nat) :
    l2_evict_entry cfg s idx =
      { s with
        tlb_l2 := setE s.tlb_l2 idx (resetE (getE s.tlb_l2 idx)),
        writebacks := s.writebacks ++
          (if (getE s.tlb_l2 idx).valid && (getE s.tlb_l2 idx).dirty then
            [compose_pa cfg (getE s.tlb_l2 idx).physical_page_number 0]
          else []) } := by
  by_cases h : (getE s.tlb_l2 idx).valid && (getE s.tlb_l2 idx).dirty <;>
    simp [l2_evict_entry, h]

theorem l2_insert_tlb_l1 (cfg : Config) (s : TLBState) (v p : Nat) (d : Bool) :
    (l2_insert cfg s v p d).tlb_l1 = s.tlb_l1 := by
  cases h : tlb_find s.tlb_l2 v <;> simp [l2_insert, h, l2_evict_entry_eq]

theorem l2_insert_ctrs (cfg : Config) (s : TLBState) (v p : Nat) (d : Bool) :
    ctrs (l2_insert cfg s v p d) = ctrs s := by
  cases h : tlb_find s.tlb_l2 v <;> simp [l2_insert, h, l2_evict_entry_eq, ctrs]

theorem l2_insert_time (cfg : Config) (s : TLBState) (v p : Nat) (d : Bool) :
    (l2_insert cfg s v p d).time = s.time := by
  cases h : tlb_find s.tlb_l2 v <;> simp [l2_insert, h, l2_evict_entry_eq]

theorem l2_insert_ptCalls (cfg : Config) (s : TLBState) (v p : Nat) (d : Bool) :
    (l2_insert cfg s v p d).ptCalls = s.ptCalls := by
  cases h : tlb_find s.tlb_l2 v <;> simp [l2_insert, h, l2_evict_entry_eq]

theorem l2_insert_lru_tick (cfg : Config) (s : TLBState) (v p : Nat) (d : Bool) :
    (l2_insert cfg s v p d).lru_tick = s.lru_tick := by
  cases h : tlb_find s.tlb_l2 v <;> simp [l2_insert, h, l2_evict_entry_eq]

theorem l2_insert_l2_length (cfg : Config) (s : TLBState) (v p : Nat) (d : Bool) :
    (l2_insert cfg s v p d).tlb_l2.length = s.tlb_l2.length := by
  cases h : tlb_find s.tlb_l2 v <;> simp [l2_insert, h, l2_evict_entry_eq]

theorem l1_evict_entry_ctrs (cfg : Config) (s : TLBState) (idx : Nat) :
    ctrs (l1_evict_entry cfg s idx) = ctrs s := by
  by_cases h : (getE s.tlb_l1 idx).valid && (getE s.tlb_l1 idx).dirty
  · have hc := l2_insert_ctrs cfg s (getE s.tlb_l1 idx).virtual_page_number
      (getE s.tlb_l1 idx).physical_page_number true
    simp only [ctrs, Prod.mk.injEq] at hc
    obtain ⟨h1, h2, h3, h4, h5, h6⟩ := hc
    simp [l1_evict_entry, h, ctrs, h1, h2, h3, h4, h5, h6]
  · simp [l1_evict_entry, h, ctrs]

theorem l1_evict_entry_time (cfg : Config) (s : TLBState) (idx : Nat) :
    (l1_evict_entry cfg s idx).time = s.time := by
  by_cases h : (getE s.tlb_l1 idx).valid && (getE s.tlb_l1 idx).dirty <;>
    simp [l1_evict_entry, h, l2_insert_time]

theorem l1_evict_entry_ptCalls (cfg : Config) (s : TLBState) (idx : Nat) :
    (l1_evict_entry cfg s idx).ptCalls = s.ptCalls := by
  by_cases h : (getE s.tlb_l1 idx).valid && (getE s.tlb_l1 idx).dirty <;>
    simp [l1_evict_entry, h, l2_insert_ptCalls]

theorem l1_evict_entry_lru_tick (cfg : Config) (s : TLBState) (idx : Nat) :
    (l1_evict_entry cfg s idx).lru_tick = s.lru_tick := by
  by_cases h : (getE s.tlb_l1 idx).valid && (getE s.tlb_l1 idx).dirty <;>
    simp [l1_evict_entry, h, l2_insert_lru_tick]

theorem l1_evict_entry_tlb_l1 (cfg : Config) (s : TLBState) (idx : Nat) :
    (l1_evict_entry cfg s idx).tlb_l1 =
      setE s.tlb_l1 idx (resetE (getE s.tlb_l1 idx)) := by
  by_cases h : (getE s.tlb_l1 idx).valid && (getE s.tlb_l1 idx).dirty <;>
    simp [l1_evict_entry, h, l2_insert_tlb_l1]

theorem l1_evict_entry_l1_length (cfg : Config) (s : TLBState) (idx : Nat) :
    (l1_evict_entry cfg s idx).tlb_l1.length = s.tlb_l1.length := by
  rw [l1_evict_entry_tlb_l1]; simp

theorem l1_evict_entry_l2_length (cfg : Config) (s : TLBState) (idx : Nat) :
    (l1_evict_entry cfg s idx).tlb_l2.length = s.tlb_l2.length := by
  by_cases h : (getE s.tlb_l1 idx).valid && (getE s.tlb_l1 idx).dirty <;>
    simp [l1_evict_entry, h, l2_insert_l2_length]

theorem l1_insert_ctrs (cfg : Config) (s : TLBState) (v p : Nat) (d : Bool) :
    ctrs (l1_insert cfg s v p d) = ctrs s := by
  cases h : tlb_find s.tlb_l1 v with
  | some idx => simp [l1_insert, h, ctrs]
  | none =>
    have hc := l1_evict_entry_ctrs cfg s (choose_victim s.tlb_l1)
    simp only [ctrs, Prod.mk.injEq] at hc
    obtain ⟨h1, h2, h3, h4, h5, h6⟩ := hc
    simp [l1_insert, h, ctrs, h1, h2, h3, h4, h5, h6]

theorem l1_insert_time (cfg : Config) (s : TLBState) (v p : Nat) (d : Bool) :
    (l1_insert cfg s v p d).time = s.time := by
  cases h : tlb_find s.tlb_l1 v <;>
    simp [l1_insert, h, l1_evict_entry_time]

theorem l1_insert_ptCalls (cfg : Config) (s : TLBState) (v p : Nat) (d : Bool) :
    (l1_insert cfg s v p d).ptCalls = s.ptCalls := by
  cases h : tlb_find s.tlb_l1 v <;>
    simp [l1_insert, h, l1_evict_entry_ptCalls]

theorem l1_insert_l1_length (cfg : Config) (s : TLBState) (v p : Nat) (d : Bool) :
    (l1_insert cfg s v p d).tlb_l1.length = s.tlb_l1.length := by
  cases h : tlb_find s.tlb_l1 v <;>
    simp [l1_insert, h, l1_evict_entry_l1_length]

theorem l1_insert_l2_length (cfg : Config) (s : TLBState) (v p : Nat) (d : Bool) :
    (l1_insert cfg s v p d).tlb_l2.length = s.tlb_l2.length := by
  cases h : tlb_find s.tlb_l1 v <;>
    simp [l1_insert, h, l1_evict_entry_l2_length]

theorem ctrs_fields {s t : TLBState} (h : ctrs s = ctrs t) :
    s.tlb_l1_hits = t.tlb_l1_hits ∧ s.tlb_l1_misses = t.tlb_l1_misses ∧
    s.tlb_l1_invalidations = t.tlb_l1_invalidations ∧
    s.tlb_l2_hits = t.tlb_l2_hits ∧ s.tlb_l2_misses = t.tlb_l2_misses ∧
    s.tlb_l2_invalidations = t.tlb_l2_invalidations := by
  simpa [ctrs, Prod.ext_iff] using h

/-! ### Path lemmas for `tlb_translate` -/

theorem translate_l1_hit_eq (cfg : Config) (pt : Nat → Op → Nat) (s : TLBState)
    (va : Nat) (op : Op) (idx : Nat)
    (h : tlb_find s.tlb_l1 (va_to_vpn cfg va) = some idx) :
    tlb_translate cfg pt s va op =
      (compose_pa cfg (getE s.tlb_l1 idx).physical_page_number (va_offset cfg va),
       { s with
         tlb_l1 := setE s.tlb_l1 idx
           { getE s.tlb_l1 idx with
             last_access := s.lru_tick + 1,
             dirty := if op = Op.OP_WRITE then true else (getE s.tlb_l1 idx).dirty },
         tlb_l1_hits := s.tlb_l1_hits + 1,
         lru_tick := s.lru_tick + 1,
         time := s.time + cfg.TLB_L1_LATENCY_NS }) := by
  simp [tlb_translate, h]

theorem translate_l2_hit_eq (cfg : Config) (pt : Nat → Op → Nat) (s : TLBState)
    (va : Nat) (op : Op) (idx2 : Nat)
    (h1 : tlb_find s.tlb_l1 (va_to_vpn cfg va) = none)
    (h2 : tlb_find s.tlb_l2 (va_to_vpn cfg va) = some idx2) :
    tlb_translate cfg pt s va op =
      (compose_pa cfg (getE s.tlb_l2 idx2).physical_page_number (va_offset cfg va),
       l1_insert cfg
         { s with
           tlb_l1_misses := s.tlb_l1_misses + 1,
           tlb_l2_hits := s.tlb_l2_hits + 1,
           lru_tick2 := s.lru_tick2 + 1,
           tlb_l2 := setE s.tlb_l2 idx2
             { getE s.tlb_l2 idx2 with
               last_access := s.lru_tick2 + 1,
               dirty := if op = Op.OP_WRITE then true else (getE s.tlb_l2 idx2).dirty },
           time := s.time + cfg.TLB_L1_LATENCY_NS + cfg.TLB_L2_LATENCY_NS }
         (va_to_vpn cfg va) (getE s.tlb_l2 idx2).physical_page_number
         (op == Op.OP_WRITE)) := by
  simp [tlb_translate, h1, h2]

theorem translate_miss_miss_eq (cfg : Config) (pt : Nat → Op → Nat) (s : TLBState)
    (va : Nat) (op : Op)
    (h1 : tlb_find s.tlb_l1 (va_to_vpn cfg va) = none)
    (h2 : tlb_find s.tlb_l2 (va_to_vpn cfg va) = none) :
    tlb_translate cfg pt s va op =
      (pt va op,
       l2_insert cfg
         (l1_insert cfg
           { s with
             tlb_l1_misses := s.tlb_l1_misses + 1,
             tlb_l2_misses := s.tlb_l2_misses + 1,
             time := s.time + cfg.TLB_L1_LATENCY_NS + cfg.TLB_L2_LATENCY_NS,
             ptCalls := s.ptCalls ++ [(va, op)] }
           (va_to_vpn cfg va) (pa_to_ppn cfg (pt va op)) (op == Op.OP_WRITE))
         (va_to_vpn cfg va) (pa_to_ppn cfg (pt va op)) (op == Op.OP_WRITE)) := by
  simp [tlb_translate, h1, h2]

/-! ### Counter discipline lemmas -/

/-- Pointwise order on the six counters. -/
def counterLe (s t : TLBState) : Prop :=
  s.tlb_l1_hits ≤ t.tlb_l1_hits ∧ s.tlb_l1_misses ≤ t.tlb_l1_misses ∧
  s.tlb_l1_invalidations ≤ t.tlb_l1_invalidations ∧
  s.tlb_l2_hits ≤ t.tlb_l2_hits ∧ s.tlb_l2_misses ≤ t.tlb_l2_misses ∧
  s.tlb_l2_invalidations ≤ t.tlb_l2_invalidations

theorem counterLe_refl (s : TLBState) : counterLe s s := by
  simp [counterLe]

theorem counterLe_trans {s t u : TLBState}
    (h1 : counterLe s t) (h2 : counterLe t u) : counterLe s u := by
  obtain ⟨a1, a2, a3, a4, a5, a6⟩ := h1
  obtain ⟨b1, b2, b3, b4, b5, b6⟩ := h2
  exact ⟨Nat.le_trans a1 b1, Nat.le_trans a2 b2, Nat.le_trans a3 b3,
    Nat.le_trans a4 b4, Nat.le_trans a5 b5, Nat.le_trans a6 b6⟩

/-- The per-call counter discipline of `tlb_translate`: exactly one of
L1 hit / L1 miss; on an L1 miss exactly one of L2 hit / L2 miss; the
invalidation counters never move. -/
theorem translate_ctrs_cases (cfg : Config) (pt : Nat → Op → Nat)
    (s : TLBState) (va : Nat) (op : Op) :
    ((tlb_translate cfg pt s va op).2.tlb_l1_hits = s.tlb_l1_hits + 1 ∧
     (tlb_translate cfg pt s va op).2.tlb_l1_misses = s.tlb_l1_misses ∧
     (tlb_translate cfg pt s va op).2.tlb_l2_hits = s.tlb_l2_hits ∧
     (tlb_translate cfg pt s va op).2.tlb_l2_misses = s.tlb_l2_misses ∧
     (tlb_translate cfg pt s va op).2.tlb_l1_invalidations = s.tlb_l1_invalidations ∧
     (tlb_translate cfg pt s va op).2.tlb_l2_invalidations = s.tlb_l2_invalidations) ∨
    ((tlb_translate cfg pt s va op).2.tlb_l1_hits = s.tlb_l1_hits ∧
     (tlb_translate cfg pt s va op).2.tlb_l1_misses = s.tlb_l1_misses + 1 ∧
     (tlb_translate cfg pt s va op).2.tlb_l1_invalidations = s.tlb_l1_invalidations ∧
     (tlb_translate cfg pt s va op).2.tlb_l2_invalidations = s.tlb_l2_invalidations ∧
     (((tlb_translate cfg pt s va op).2.tlb_l2_hits = s.tlb_l2_hits + 1 ∧
       (tlb_translate cfg pt s va op).2.tlb_l2_misses = s.tlb_l2_misses) ∨
      ((tlb_translate cfg pt s va op).2.tlb_l2_hits = s.tlb_l2_hits ∧
       (tlb_translate cfg pt s va op).2.tlb_l2_misses = s.tlb_l2_misses + 1))) := by
  cases h1 : tlb_find s.tlb_l1 (va_to_vpn cfg va) with
  | some idx1 =>
    left
    rw [translate_l1_hit_eq cfg pt s va op idx1 h1]
    exact ⟨rfl, rfl, rfl, rfl, rfl, rfl⟩
  | none =>
    right
    cases h2 : tlb_find s.tlb_l2 (va_to_vpn cfg va) with
    | some idx2 =>
      rw [translate_l2_hit_eq cfg pt s va op idx2 h1 h2]
      obtain ⟨e1, e2, e3, e4, e5, e6⟩ := ctrs_fields (l1_insert_ctrs cfg
        { s with
          tlb_l1_misses := s.tlb_l1_misses + 1,
          tlb_l2_hits := s.tlb_l2_hits + 1,
          lru_tick2 := s.lru_tick2 + 1,
          tlb_l2 := setE s.tlb_l2 idx2
            { getE s.tlb_l2 idx2 with
              last_access := s.lru_tick2 + 1,
              dirty := if op = Op.OP_WRITE then true else (getE s.tlb_l2 idx2).dirty },
          time := s.time + cfg.TLB_L1_LATENCY_NS + cfg.TLB_L2_LATENCY_NS }
        (va_to_vpn cfg va) (getE s.tlb_l2 idx2).physical_page_number
        (op == Op.OP_WRITE))
      exact ⟨e1, e2, e3, e6, Or.inl ⟨e4, e5⟩⟩
    | none =>
      rw [translate_miss_miss_eq cfg pt s va op h1 h2]
      obtain ⟨e1, e2, e3, e4, e5, e6⟩ := ctrs_fields (l1_insert_ctrs cfg
        { s with
          tlb_l1_misses := s.tlb_l1_misses + 1,
          tlb_l2_misses := s.tlb_l2_misses + 1,
          time := s.time + cfg.TLB_L1_LATENCY_NS + cfg.TLB_L2_LATENCY_NS,
          ptCalls := s.ptCalls ++ [(va, op)] }
        (va_to_vpn cfg va) (pa_to_ppn cfg (pt va op)) (op == Op.OP_WRITE))
      obtain ⟨f1, f2, f3, f4, f5, f6⟩ := ctrs_fields (l2_insert_ctrs cfg
        (l1_insert cfg
          { s with
            tlb_l1_misses := s.tlb_l1_misses + 1,
            tlb_l2_misses := s.tlb_l2_misses + 1,
            time := s.time + cfg.TLB_L1_LATENCY_NS + cfg.TLB_L2_LATENCY_NS,
            ptCalls := s.ptCalls ++ [(va, op)] }
          (va_to_vpn cfg va) (pa_to_ppn cfg (pt va op)) (op == Op.OP_WRITE))
        (va_to_vpn cfg va) (pa_to_ppn cfg (pt va op)) (op == Op.OP_WRITE))
      refine ⟨?_, ?_, ?_, ?_, Or.inr ⟨?_, ?_⟩⟩
      · rw [f1, e1]
      · rw [f2, e2]
      · rw [f3, e3]
      · rw [f6, e6]
      · rw [f4, e4]
      · rw [f5, e5]

theorem invalidate_l1_ctrs (cfg : Config) (s : TLBState) (v : Nat) :
    (tlb_invalidate_l1 cfg s v).tlb_l1_hits = s.tlb_l1_hits ∧
    (tlb_invalidate_l1 cfg s v).tlb_l1_misses = s.tlb_l1_misses ∧
    (tlb_invalidate_l1 cfg s v).tlb_l2_hits = s.tlb_l2_hits ∧
    (tlb_invalidate_l1 cfg s v).tlb_l2_misses = s.tlb_l2_misses ∧
    (tlb_invalidate_l1 cfg s v).tlb_l2_invalidations = s.tlb_l2_invalidations ∧
    ((tlb_invalidate_l1 cfg s v).tlb_l1_invalidations = s.tlb_l1_invalidations ∨
     (tlb_invalidate_l1 cfg s v).tlb_l1_invalidations = s.tlb_l1_invalidations + 1) := by
  cases h : tlb_find s.tlb_l1 v with
  | none => simp [tlb_invalidate_l1, h]
  | some i =>
    by_cases hd : (getE s.tlb_l1 i).dirty
    · obtain ⟨e1, e2, e3, e4, e5, e6⟩ := ctrs_fields (l2_insert_ctrs cfg s
        (getE s.tlb_l1 i).virtual_page_number (getE s.tlb_l1 i).physical_page_number true)
      simp [tlb_invalidate_l1, h, hd, e1, e2, e3, e4, e5, e6]
    · simp [tlb_invalidate_l1, h, hd]

theorem invalidate_l2_ctrs (cfg : Config) (s : TLBState) (v : Nat) :
    (tlb_invalidate_l2 cfg s v).tlb_l1_hits = s.tlb_l1_hits ∧
    (tlb_invalidate_l2 cfg s v).tlb_l1_misses = s.tlb_l1_misses ∧
    (tlb_invalidate_l2 cfg s v).tlb_l2_hits = s.tlb_l2_hits ∧
    (tlb_invalidate_l2 cfg s v).tlb_l2_misses = s.tlb_l2_misses ∧
    (tlb_invalidate_l2 cfg s v).tlb_l1_invalidations = s.tlb_l1_invalidations ∧
    ((tlb_invalidate_l2 cfg s v).tlb_l2_invalidations = s.tlb_l2_invalidations ∨
     (tlb_invalidate_l2 cfg s v).tlb_l2_invalidations = s.tlb_l2_invalidations + 1) := by
  cases h : tlb_find s.tlb_l2 v with
  | none => simp [tlb_invalidate_l2, h]
  | some i =>
    by_cases hd : (getE s.tlb_l2 i).dirty
    · simp [tlb_invalidate_l2, h, hd]
    · simp [tlb_invalidate_l2, h, hd]

theorem runOp_counterLe (cfg : Config) (pt : Nat → Op → Nat)
    (s : TLBState) (o : TLBOp) : counterLe s (runOp cfg pt s o) := by
  cases o with
  | translateOp va op =>
    rcases translate_ctrs_cases cfg pt s va op with
      ⟨e1, e2, e3, e4, e5, e6⟩ | ⟨e1, e2, e3, e4, ⟨e5, e6⟩ | ⟨e5, e6⟩⟩ <;>
      (refine ⟨?_, ?_, ?_, ?_, ?_, ?_⟩ <;> simp [runOp, e1, e2, e3, e4, e5, e6])
  | invalidateOp v =>
    obtain ⟨a1, a2, a3, a4, a5, a6⟩ := invalidate_l1_ctrs cfg
      { s with time := s.time + (cfg.TLB_L1_LATENCY_NS + cfg.TLB_L2_LATENCY_NS) } v
    obtain ⟨b1, b2, b3, b4, b5, b6⟩ := invalidate_l2_ctrs cfg
      (tlb_invalidate_l1 cfg
        { s with time := s.time + (cfg.TLB_L1_LATENCY_NS + cfg.TLB_L2_LATENCY_NS) } v) v
    show counterLe s (tlb_invalidate cfg s v)
    unfold tlb_invalidate
    rcases a6 with a6 | a6 <;> rcases b6 with b6 | b6 <;>
      (refine ⟨?_, ?_, ?_, ?_, ?_, ?_⟩ <;>
        · simp only [b1, b2, b3, b4, b5, b6, a1, a2, a3, a4, a5, a6]
          omega)

theorem runOps_counterLe (cfg : Config) (pt : Nat → Op → Nat)
    (s : TLBState) (ops : List TLBOp) : counterLe s (runOps cfg pt s ops) := by
  induction ops generalizing s with
  | nil => exact counterLe_refl s
  | cons o rest ih =>
    exact counterLe_trans (runOp_counterLe cfg pt s o) (ih (runOp cfg pt s o))

/-! ### Absence of a VPN and its preservation -/

/-- No valid entry of the level holds VPN `v`. -/
def noValidVPN (l : List TLBEntry) (v : Nat) : Prop :=
  ∀ j, entryMatches v (getE l j) = false

theorem entryMatches_iff (v : Nat) (e : TLBEntry) :
    entryMatches v e = true ↔ e.valid = true ∧ e.virtual_page_number = v := by
  simp [entryMatches]

@[simp]
theorem entryMatches_resetE (v : Nat) (e : TLBEntry) :
    entryMatches v (resetE e) = false := by
  simp [entryMatches, resetE]

theorem noValidVPN_setE (l : List TLBEntry) (i : Nat) (a : TLBEntry) (v : Nat)
    (ha : entryMatches v a = false) (h : noValidVPN l v) :
    noValidVPN (setE l i a) v := by
  intro j
  rcases Nat.lt_or_ge i l.length with hi | hi
  · by_cases hji : j = i
    · subst hji; rw [getE_setE_eq l j a hi]; exact ha
    · rw [getE_setE_ne l i j a hji]; exact h j
  · rw [setE_oob l i a hi]; exact h j

theorem l2_evict_noValidVPN (cfg : Config) (s : TLBState) (idx v : Nat)
    (h : noValidVPN s.tlb_l2 v) :
    noValidVPN (l2_evict_entry cfg s idx).tlb_l2 v := by
  rw [l2_evict_entry_eq]
  exact noValidVPN_setE s.tlb_l2 idx _ v (entryMatches_resetE v _) h

theorem l2_insert_noValidVPN (cfg : Config) (s : TLBState) (w p : Nat)
    (d : Bool) (v : Nat) (hne : w ≠ v) (h : noValidVPN s.tlb_l2 v) :
    noValidVPN (l2_insert cfg s w p d).tlb_l2 v := by
  cases hf : tlb_find s.tlb_l2 w with
  | some idx =>
    have hm := (tlb_find_some s.tlb_l2 w idx hf).2
    have hvpn : (getE s.tlb_l2 idx).virtual_page_number = w :=
      ((entryMatches_iff w _).mp hm).2
    simp only [l2_insert, hf]
    refine noValidVPN_setE s.tlb_l2 idx _ v ?_ h
    simp [entryMatches, hvpn, hne]
  | none =>
    simp only [l2_insert, hf]
    refine noValidVPN_setE _ _ _ v ?_ (l2_evict_noValidVPN cfg s _ v h)
    simp [entryMatches, hne]

theorem l1_evict_l2_noValidVPN (cfg : Config) (s : TLBState) (idx v : Nat)
    (h2 : noValidVPN s.tlb_l2 v)
    (hvpn : (getE s.tlb_l1 idx).valid = true →
      (getE s.tlb_l1 idx).virtual_page_number ≠ v) :
    noValidVPN (l1_evict_entry cfg s idx).tlb_l2 v := by
  by_cases hd : ((getE s.tlb_l1 idx).valid && (getE s.tlb_l1 idx).dirty) = true
  · have hv : (getE s.tlb_l1 idx).valid = true := by
      revert hd; cases (getE s.tlb_l1 idx).valid <;> simp
    simp only [l1_evict_entry, hd, if_true]
    exact l2_insert_noValidVPN cfg s _ _ true v (hvpn hv) h2
  · simp only [l1_evict_entry, hd, Bool.false_eq_true, if_false]
    exact h2

theorem l1_insert_l2_noValidVPN (cfg : Config) (s : TLBState) (p : Nat)
    (d : Bool) (v : Nat)
    (h1 : noValidVPN s.tlb_l1 v) (h2 : noValidVPN s.tlb_l2 v) :
    noValidVPN (l1_insert cfg s v p d).tlb_l2 v := by
  have hf : tlb_find s.tlb_l1 v = none := (tlb_find_none_iff s.tlb_l1 v).mpr h1
  simp only [l1_insert, hf]
  have := l1_evict_l2_noValidVPN cfg s (choose_victim s.tlb_l1) v h2 ?_
  · exact this
  · intro hv heq
    have := h1 (choose_victim s.tlb_l1)
    rw [entryMatches, hv, heq] at this
    simp at this

/-! ### Fresh-insert containment lemmas -/

theorem l1_insert_fresh_getE (cfg : Config) (s : TLBState) (v p : Nat) (d : Bool)
    (h : tlb_find s.tlb_l1 v = none) (hne : 0 < s.tlb_l1.length) :
    getE (l1_insert cfg s v p d).tlb_l1 (choose_victim s.tlb_l1) =
      ⟨true, d, s.lru_tick + 1, v, p⟩ := by
  have hnil : s.tlb_l1 ≠ [] := by
    intro he; rw [he] at hne; simp at hne
  have hlt : choose_victim s.tlb_l1 < s.tlb_l1.length := choose_victim_lt s.tlb_l1 hnil
  simp only [l1_insert, h]
  rw [l1_evict_entry_lru_tick]
  exact getE_setE_eq _ _ _ (by rw [l1_evict_entry_l1_length]; exact hlt)

theorem l2_evict_entry_lru_tick2 (cfg : Config) (s : TLBState) (idx : Nat) :
    (l2_evict_entry cfg s idx).lru_tick2 = s.lru_tick2 := by
  rw [l2_evict_entry_eq]

theorem l2_insert_fresh_getE (cfg : Config) (s : TLBState) (v p : Nat) (d : Bool)
    (h : tlb_find s.tlb_l2 v = none) (hne : 0 < s.tlb_l2.length) :
    getE (l2_insert cfg s v p d).tlb_l2 (choose_victim s.tlb_l2) =
      ⟨true, d, s.lru_tick2 + 1, v, p⟩ := by
  have hnil : s.tlb_l2 ≠ [] := by
    intro he; rw [he] at hne; simp at hne
  have hlt : choose_victim s.tlb_l2 < s.tlb_l2.length := choose_victim_lt s.tlb_l2 hnil
  simp only [l2_insert, h]
  rw [l2_evict_entry_lru_tick2]
  refine getE_setE_eq _ _ _ ?_
  rw [l2_evict_entry_eq]
  simpa using hlt

theorem tlb_find_after_fresh_l2_insert (cfg : Config) (s : TLBState)
    (v p : Nat) (d : Bool)
    (h : tlb_find s.tlb_l2 v = none) (hne : 0 < s.tlb_l2.length) :
    tlb_find (l2_insert cfg s v p d).tlb_l2 v = some (choose_victim s.tlb_l2) := by
  have hnil : s.tlb_l2 ≠ [] := by
    intro he; rw [he] at hne; simp at hne
  have hlt : choose_victim s.tlb_l2 < s.tlb_l2.length := choose_victim_lt s.tlb_l2 hnil
  have habs := (tlb_find_none_iff s.tlb_l2 v).mp h
  refine tlb_find_eq_some_of_unique _ v _ ?_ ?_ ?_
  · rw [l2_insert_l2_length]; exact hlt
  · rw [l2_insert_fresh_getE cfg s v p d h hne]
    simp [entryMatches]
  · intro j hj
    simp only [l2_insert, h]
    rw [getE_setE_ne _ _ _ _ hj, l2_evict_entry_eq]
    exact noValidVPN_setE s.tlb_l2 _ _ v (entryMatches_resetE v _) habs j

/-! ### Further containment helper lemmas -/

theorem getE_valid_lt (l : List TLBEntry) (i : Nat)
    (h : (getE l i).valid = true) : i < l.length := by
  induction l generalizing i with
  | nil => cases i <;> simp [getE, emptyEntry] at h
  | cons e rest ih =>
    cases i with
    | zero => simp
    | succ i => simpa using ih i h

/-- Inserting `(v, p)` with `dirty = true` into a nonempty L2 leaves a
valid dirty entry for `(v, p)` somewhere in L2, whichever path is taken. -/
theorem l2_insert_contains (cfg : Config) (s : TLBState) (v p : Nat)
    (hne : 0 < s.tlb_l2.length) :
    ∃ j t, j < (l2_insert cfg s v p true).tlb_l2.length ∧
      getE (l2_insert cfg s v p true).tlb_l2 j = ⟨true, true, t, v, p⟩ := by
  cases hf : tlb_find s.tlb_l2 v with
  | some idx =>
    obtain ⟨hlt, hm⟩ := tlb_find_some s.tlb_l2 v idx hf
    obtain ⟨hval, hvpn⟩ := (entryMatches_iff v _).mp hm
    refine ⟨idx, s.lru_tick2 + 1, ?_, ?_⟩
    · rw [l2_insert_l2_length]; exact hlt
    · simp only [l2_insert, hf]
      rw [getE_setE_eq _ _ _ hlt]
      simp [hval, hvpn]
  | none =>
    exact ⟨choose_victim s.tlb_l2, s.lru_tick2 + 1,
      by rw [l2_insert_l2_length]
         exact choose_victim_lt s.tlb_l2 (by intro he; rw [he] at hne; simp at hne),
      l2_insert_fresh_getE cfg s v p true hf hne⟩

theorem l2_insert_writebacks_of_find (cfg : Config) (s : TLBState)
    (v p : Nat) (d : Bool) (idx : Nat) (hf : tlb_find s.tlb_l2 v = some idx) :
    (l2_insert cfg s v p d).writebacks = s.writebacks := by
  simp [l2_insert, hf]

theorem l2_insert_writebacks_of_clean_victim (cfg : Config) (s : TLBState)
    (v p : Nat) (d : Bool)
    (hclean : ((getE s.tlb_l2 (choose_victim s.tlb_l2)).valid &&
      (getE s.tlb_l2 (choose_victim s.tlb_l2)).dirty) = false) :
    (l2_insert cfg s v p d).writebacks = s.writebacks := by
  cases hf : tlb_find s.tlb_l2 v with
  | some idx => exact l2_insert_writebacks_of_find cfg s v p d idx hf
  | none => simp [l2_insert, hf, l2_evict_entry_eq, hclean]

/-! ### Membership characterizations of the scans -/

theorem tlb_find_none_iff_mem (l : List TLBEntry) (v : Nat) :
    tlb_find l v = none ↔ ∀ e ∈ l, entryMatches v e = false := by
  induction l with
  | nil => simp [tlb_find]
  | cons a rest ih =>
    cases hm : entryMatches v a with
    | true => simp [tlb_find, hm]
    | false => simp [tlb_find, hm, Option.map_eq_none', ih]

theorem tlb_find_isSome_of_mem (l : List TLBEntry) (v : Nat) (e : TLBEntry)
    (he : e ∈ l) (hm : entryMatches v e = true) :
    (tlb_find l v).isSome = true := by
  induction l with
  | nil => simp at he
  | cons a rest ih =>
    cases hma : entryMatches v a with
    | true => simp [tlb_find, hma]
    | false =>
      rcases List.mem_cons.mp he with rfl | hrest
      · rw [hm] at hma; cases hma
      · have hrec := ih hrest
        simp only [tlb_find, hma, Bool.false_eq_true, if_false]
        cases hf : tlb_find rest v with
        | none => rw [hf] at hrec; simp at hrec
        | some k => simp [hf]

theorem find_invalid_none_of_all_valid (l : List TLBEntry)
    (h : ∀ e ∈ l, e.valid = true) : find_invalid l = none := by
  induction l with
  | nil => rfl
  | cons a rest ih =>
    simp only [find_invalid, h a (by simp), if_true]
    rw [ih (fun e he => h e (by simp [he]))]
    rfl

theorem find_invalid_append_replicate (pre : List TLBEntry) (n : Nat)
    (hpre : ∀ e ∈ pre, e.valid = true) (hn : 0 < n) :
    find_invalid (pre ++ List.replicate n emptyEntry) = some pre.length := by
  induction pre with
  | nil =>
    cases n with
    | zero => simp at hn
    | succ n => simp [find_invalid, emptyEntry]
  | cons a pre ih =>
    simp only [List.cons_append, find_invalid, hpre a (by simp), if_true]
    show Option.map (fun n => n + 1)
      (find_invalid (pre ++ List.replicate n emptyEntry)) = some (pre.length + 1)
    rw [ih (fun e he => hpre e (by simp [he]))]
    rfl

/-! ### More `setE` algebra -/

theorem setE_setE_same (l : List TLBEntry) (i : Nat) (a b : TLBEntry) :
    setE (setE l i a) i b = setE l i b := by
  induction l generalizing i with
  | nil => rfl
  | cons e rest ih =>
    cases i with
    | zero => rfl
    | succ i => simp [setE, ih]

theorem setE_append_len (pre l2 : List TLBEntry) (a : TLBEntry) :
    setE (pre ++ l2) pre.length a = pre ++ setE l2 0 a := by
  induction pre with
  | nil => rfl
  | cons e pre ih => simp [setE, ih]

/-! ### Fresh-insert shape lemmas for L1 -/

theorem l1_insert_fresh_lru_tick (cfg : Config) (s : TLBState) (v p : Nat)
    (d : Bool) (h : tlb_find s.tlb_l1 v = none) :
    (l1_insert cfg s v p d).lru_tick = s.lru_tick + 1 := by
  simp [l1_insert, h, l1_evict_entry_lru_tick]

theorem l1_insert_fresh_tlb_l1 (cfg : Config) (s : TLBState) (v p : Nat)
    (d : Bool) (h : tlb_find s.tlb_l1 v = none) :
    (l1_insert cfg s v p d).tlb_l1 =
      setE s.tlb_l1 (choose_victim s.tlb_l1) ⟨true, d, s.lru_tick + 1, v, p⟩ := by
  simp only [l1_insert, h]
  rw [l1_evict_entry_tlb_l1, l1_evict_entry_lru_tick, setE_setE_same]

/-! ### Filling a level with a sequence of fresh clean inserts -/

/-- Insert each VPN of the list into L1 in order (clean entries, PPN taken
equal to the VPN); this is the insertion sequence of the LRU scenario. -/
def l1_insertAll (cfg : Config) (s : TLBState) : List Nat → TLBState
  | [] => s
  | v :: vs => l1_insertAll cfg (l1_insert cfg s v v false) vs

/-- The slot contents produced by freshly inserting the VPNs in order,
starting from logical tick `t`: strictly increasing `last_access` stamps. -/
def fillPattern (t : Nat) : List Nat → List TLBEntry
  | [] => []
  | v :: vs => ⟨true, false, t + 1, v, v⟩ :: fillPattern (t + 1) vs

theorem l1_insertAll_append (cfg : Config) (s : TLBState) (xs ys : List Nat) :
    l1_insertAll cfg s (xs ++ ys) = l1_insertAll cfg (l1_insertAll cfg s xs) ys := by
  induction xs generalizing s with
  | nil => rfl
  | cons x xs ih => simp [l1_insertAll, ih]

theorem length_fillPattern (t : Nat) (vs : List Nat) :
    (fillPattern t vs).length = vs.length := by
  induction vs generalizing t with
  | nil => rfl
  | cons v vs ih => simp [fillPattern, ih]

theorem mem_fillPattern (t : Nat) (vs : List Nat) (e : TLBEntry)
    (he : e ∈ fillPattern t vs) :
    e.valid = true ∧ e.virtual_page_number ∈ vs := by
  induction vs generalizing t with
  | nil => simp [fillPattern] at he
  | cons v vs ih =>
    rcases List.mem_cons.mp he with rfl | htail
    · exact ⟨rfl, by simp⟩
    · obtain ⟨h1, h2⟩ := ih (t + 1) htail
      exact ⟨h1, by simp [h2]⟩

theorem fillPattern_exists_match (t : Nat) (vs : List Nat) (u : Nat)
    (hu : u ∈ vs) :
    ∃ e ∈ fillPattern t vs, entryMatches u e = true := by
  induction vs generalizing t with
  | nil => simp at hu
  | cons v vs ih =>
    rcases List.mem_cons.mp hu with rfl | htail
    · exact ⟨⟨true, false, t + 1, u, u⟩, by simp [fillPattern], by simp [entryMatches]⟩
    · obtain ⟨e, he, hm⟩ := ih (t + 1) htail
      exact ⟨e, by simp [fillPattern, he], hm⟩

theorem getE_fillPattern_last (t : Nat) (vs : List Nat) (k : Nat)
    (hk : k < vs.length) :
    (getE (fillPattern t vs) k).last_access = t + k + 1 := by
  induction vs generalizing t k with
  | nil => simp at hk
  | cons v vs ih =>
    cases k with
    | zero => simp [fillPattern, getE]
    | succ k =>
      have := ih (t + 1) k (by simpa using hk)
      simp only [fillPattern, getE]
      rw [this]; omega

/-- Running the insertion sequence over a level that starts as a fully
valid prefix `pre` (holding none of the VPNs to insert) followed by empty
slots fills the empty slots in order with the `fillPattern` entries. -/
theorem insertAll_fill (cfg : Config) (vs : List Nat) :
    ∀ (s : TLBState) (pre : List TLBEntry) (m : Nat),
      s.tlb_l1 = pre ++ List.replicate (vs.length + m) emptyEntry →
      (∀ e ∈ pre, e.valid = true) →
      (∀ e ∈ pre, e.virtual_page_number ∉ vs) →
      vs.Nodup →
      (l1_insertAll cfg s vs).tlb_l1 =
        (pre ++ fillPattern s.lru_tick vs) ++ List.replicate m emptyEntry ∧
      (l1_insertAll cfg s vs).lru_tick = s.lru_tick + vs.length := by
  induction vs with
  | nil =>
    intro s pre m hs _ _ _
    simpa [l1_insertAll, fillPattern] using hs
  | cons v vs ih =>
    intro s pre m hs hval hnot hnd
    have hfind : tlb_find s.tlb_l1 v = none := by
      rw [tlb_find_none_iff_mem, hs]
      intro e he
      rcases List.mem_append.mp he with hpre | hrep
      · have h1 := hval e hpre
        have h2 : e.virtual_page_number ≠ v := by
          intro hc
          exact hnot e hpre (by simp [hc])
        simp [entryMatches, h2]
      · rw [List.eq_of_mem_replicate hrep]
        rfl
    have hinv : find_invalid s.tlb_l1 = some pre.length := by
      rw [hs]
      exact find_invalid_append_replicate pre _ hval
        (by simp only [List.length_cons]; omega)
    have hvict : choose_victim s.tlb_l1 = pre.length :=
      choose_victim_invalid s.tlb_l1 pre.length hinv
    have hs1 : (l1_insert cfg s v v false).tlb_l1 =
        (pre ++ [⟨true, false, s.lru_tick + 1, v, v⟩]) ++
          List.replicate (vs.length + m) emptyEntry := by
      rw [l1_insert_fresh_tlb_l1 cfg s v v false hfind, hvict, hs]
      have hrep : List.replicate (vs.length + 1 + m) emptyEntry =
          emptyEntry :: List.replicate (vs.length + m) emptyEntry := by
        have : vs.length + 1 + m = (vs.length + m) + 1 := by omega
        rw [this]
        rfl
      rw [show (v :: vs).length + m = vs.length + 1 + m from
        by simp only [List.length_cons], hrep, setE_append_len]
      simp [setE]
    have htick : (l1_insert cfg s v v false).lru_tick = s.lru_tick + 1 :=
      l1_insert_fresh_lru_tick cfg s v v false hfind
    obtain ⟨hres, hrestick⟩ := ih (l1_insert cfg s v v false)
      (pre ++ [⟨true, false, s.lru_tick + 1, v, v⟩]) m hs1
      (by intro e he
          rcases List.mem_append.mp he with hpre | hone
          · exact hval e hpre
          · rw [List.mem_singleton.mp hone])
      (by intro e he
          rcases List.mem_append.mp he with hpre | hone
          · intro hc
            exact hnot e hpre (by simp [hc])
          · rw [List.mem_singleton.mp hone]
            exact (List.nodup_cons.mp hnd).1)
      (List.nodup_cons.mp hnd).2
    constructor
    · show (l1_insertAll cfg (l1_insert cfg s v v false) vs).tlb_l1 = _
      rw [hres, htick]
      simp [fillPattern, List.append_assoc]
    · show (l1_insertAll cfg (l1_insert cfg s v v false) vs).lru_tick = _
      rw [hrestick, htick]
      simp
      omega

/-! ### The reachable-state invariant: VPN uniqueness and clean invalid slots -/

/-- Within one level, at most one valid entry holds any given VPN. -/
def uniq (l : List TLBEntry) : Prop :=
  ∀ i j, i < l.length → j < l.length →
    (getE l i).valid = true → (getE l j).valid = true →
    (getE l i).virtual_page_number = (getE l j).virtual_page_number → i = j

/-- Invalid slots carry no dirty flag and a zero `last_access`. -/
def cleanInvalid (l : List TLBEntry) : Prop :=
  ∀ i, i < l.length → (getE l i).valid = false →
    (getE l i).dirty = false ∧ (getE l i).last_access = 0

/-- The state invariant maintained by every operation. -/
def Inv (s : TLBState) : Prop :=
  uniq s.tlb_l1 ∧ uniq s.tlb_l2 ∧ cleanInvalid s.tlb_l1 ∧ cleanInvalid s.tlb_l2

theorem uniq_setE_invalid (l : List TLBEntry) (i : Nat) (a : TLBEntry)
    (h : uniq l) (ha : a.valid = false) : uniq (setE l i a) := by
  rcases Nat.lt_or_ge i l.length with hi | hi
  · intro x y hx hy hvx hvy he
    rw [length_setE] at hx hy
    by_cases hxi : x = i
    · subst hxi; rw [getE_setE_eq l x a hi] at hvx
      rw [hvx] at ha; cases ha
    · by_cases hyi : y = i
      · subst hyi; rw [getE_setE_eq l y a hi] at hvy
        rw [hvy] at ha; cases ha
      · rw [getE_setE_ne l i x a hxi] at hvx he
        rw [getE_setE_ne l i y a hyi] at hvy he
        exact h x y hx hy hvx hvy he
  · rw [setE_oob l i a hi]; exact h

theorem uniq_setE_unique (l : List TLBEntry) (i : Nat) (a : TLBEntry)
    (h : uniq l)
    (hvpn : ∀ j, j < l.length → j ≠ i → (getE l j).valid = true →
      (getE l j).virtual_page_number ≠ a.virtual_page_number) :
    uniq (setE l i a) := by
  rcases Nat.lt_or_ge i l.length with hi | hi
  · intro x y hx hy hvx hvy he
    rw [length_setE] at hx hy
    by_cases hxi : x = i
    · by_cases hyi : y = i
      · rw [hxi, hyi]
      · subst hxi
        rw [getE_setE_eq l x a hi] at he
        rw [getE_setE_ne l x y a hyi] at hvy he
        exact absurd he.symm (hvpn y hy hyi hvy)
    · by_cases hyi : y = i
      · subst hyi
        rw [getE_setE_eq l y a hi] at he
        rw [getE_setE_ne l y x a hxi] at hvx he
        exact absurd he (hvpn x hx hxi hvx)
      · rw [getE_setE_ne l i x a hxi] at hvx he
        rw [getE_setE_ne l i y a hyi] at hvy he
        exact h x y hx hy hvx hvy he
  · rw [setE_oob l i a hi]; exact h

theorem uniq_setE_update (l : List TLBEntry) (idx : Nat) (a : TLBEntry)
    (h : uniq l) (hidx : idx < l.length)
    (hold : (getE l idx).valid = true)
    (hvpn : a.virtual_page_number = (getE l idx).virtual_page_number) :
    uniq (setE l idx a) := by
  refine uniq_setE_unique l idx a h ?_
  intro j hj hji hvj he
  exact hji (h j idx hj hidx hvj hold (by rw [he, hvpn]))

theorem cleanInvalid_setE (l : List TLBEntry) (i : Nat) (a : TLBEntry)
    (h : cleanInvalid l)
    (ha : a.valid = false → a.dirty = false ∧ a.last_access = 0) :
    cleanInvalid (setE l i a) := by
  rcases Nat.lt_or_ge i l.length with hi | hi
  · intro x hx hvx
    rw [length_setE] at hx
    by_cases hxi : x = i
    · subst hxi; rw [getE_setE_eq l x a hi] at hvx ⊢; exact ha hvx
    · rw [getE_setE_ne l i x a hxi] at hvx ⊢; exact h x hx hvx
  · rw [setE_oob l i a hi]; exact h

theorem Inv_l2_evict (cfg : Config) (s : TLBState) (idx : Nat)
    (h : Inv s) : Inv (l2_evict_entry cfg s idx) := by
  obtain ⟨h1, h2, h3, h4⟩ := h
  rw [l2_evict_entry_eq]
  exact ⟨h1,
    uniq_setE_invalid _ _ _ h2 rfl, h3,
    cleanInvalid_setE _ _ _ h4 (fun _ => ⟨rfl, rfl⟩)⟩

theorem Inv_l2_insert (cfg : Config) (s : TLBState) (v p : Nat) (d : Bool)
    (h : Inv s) : Inv (l2_insert cfg s v p d) := by
  obtain ⟨h1, h2, h3, h4⟩ := h
  cases hf : tlb_find s.tlb_l2 v with
  | some idx =>
    obtain ⟨hlt, hm⟩ := tlb_find_some s.tlb_l2 v idx hf
    obtain ⟨hval, hvpn⟩ := (entryMatches_iff v _).mp hm
    simp only [l2_insert, hf]
    refine ⟨h1, ?_, h3, ?_⟩
    · exact uniq_setE_update _ _ _ h2 hlt hval (by simp [hvpn])
    · exact cleanInvalid_setE _ _ _ h4 (by intro hc; simp at hc)
  | none =>
    have habs := (tlb_find_none_iff s.tlb_l2 v).mp hf
    simp only [l2_insert, hf]
    have hev := Inv_l2_evict cfg s (choose_victim s.tlb_l2) ⟨h1, h2, h3, h4⟩
    obtain ⟨g1, g2, g3, g4⟩ := hev
    refine ⟨g1, ?_, g3, ?_⟩
    · refine uniq_setE_unique _ _ _ g2 ?_
      intro j hj hji hvj he
      rw [l2_evict_entry_eq] at hj hvj he
      rw [length_setE] at hj
      by_cases hjv : j = choose_victim s.tlb_l2
      · rw [hjv] at hvj he
        rcases Nat.lt_or_ge (choose_victim s.tlb_l2) s.tlb_l2.length with hlt2 | hge
        · rw [getE_setE_eq _ _ _ hlt2] at hvj
          simp [resetE] at hvj
        · rw [setE_oob _ _ _ hge] at hvj he
          have := habs (choose_victim s.tlb_l2)
          rw [entryMatches, hvj] at this
          simp at this
          exact this he
      · rw [getE_setE_ne _ _ _ _ hjv] at hvj he
        have := habs j
        rw [entryMatches, hvj] at this
        simp at this
        exact this he
    · exact cleanInvalid_setE _ _ _ g4 (by intro hc; simp at hc)

theorem Inv_l1_evict (cfg : Config) (s : TLBState) (idx : Nat)
    (h : Inv s) : Inv (l1_evict_entry cfg s idx) := by
  by_cases hd : ((getE s.tlb_l1 idx).valid && (getE s.tlb_l1 idx).dirty) = true
  · have hmid := Inv_l2_insert cfg s (getE s.tlb_l1 idx).virtual_page_number
      (getE s.tlb_l1 idx).physical_page_number true h
    obtain ⟨g1, g2, g3, g4⟩ := hmid
    simp only [l1_evict_entry, hd, if_true]
    rw [l2_insert_tlb_l1] at g1 g3
    refine ⟨?_, g2, ?_, g4⟩
    · rw [l2_insert_tlb_l1]
      exact uniq_setE_invalid _ _ _ g1 rfl
    · rw [l2_insert_tlb_l1]
      exact cleanInvalid_setE _ _ _ g3 (fun _ => ⟨rfl, rfl⟩)
  · obtain ⟨h1, h2, h3, h4⟩ := h
    simp only [l1_evict_entry, hd, Bool.false_eq_true, if_false]
    exact ⟨uniq_setE_invalid _ _ _ h1 rfl, h2,
      cleanInvalid_setE _ _ _ h3 (fun _ => ⟨rfl, rfl⟩), h4⟩

theorem Inv_l1_insert (cfg : Config) (s : TLBState) (v p : Nat) (d : Bool)
    (h : Inv s) : Inv (l1_insert cfg s v p d) := by
  cases hf : tlb_find s.tlb_l1 v with
  | some idx =>
    obtain ⟨h1, h2, h3, h4⟩ := h
    obtain ⟨hlt, hm⟩ := tlb_find_some s.tlb_l1 v idx hf
    obtain ⟨hval, hvpn⟩ := (entryMatches_iff v _).mp hm
    simp only [l1_insert, hf]
    refine ⟨?_, h2, ?_, h4⟩
    · exact uniq_setE_update _ _ _ h1 hlt hval (by simp [hvpn])
    · exact cleanInvalid_setE _ _ _ h3 (by intro hc; simp at hc)
  | none =>
    have habs := (tlb_find_none_iff s.tlb_l1 v).mp hf
    simp only [l1_insert, hf]
    have hev := Inv_l1_evict cfg s (choose_victim s.tlb_l1) h
    obtain ⟨g1, g2, g3, g4⟩ := hev
    refine ⟨?_, g2, ?_, g4⟩
    · refine uniq_setE_unique _ _ _ g1 ?_
      intro j hj hji hvj he
      rw [l1_evict_entry_tlb_l1] at hj hvj he
      rw [length_setE] at hj
      by_cases hjv : j = choose_victim s.tlb_l1
      · rw [hjv] at hvj he
        rcases Nat.lt_or_ge (choose_victim s.tlb_l1) s.tlb_l1.length with hlt2 | hge
        · rw [getE_setE_eq _ _ _ hlt2] at hvj
          simp [resetE] at hvj
        · rw [setE_oob _ _ _ hge] at hvj he
          have := habs (choose_victim s.tlb_l1)
          rw [entryMatches, hvj] at this
          simp at this
          exact this he
      · rw [getE_setE_ne _ _ _ _ hjv] at hvj he
        have := habs j
        rw [entryMatches, hvj] at this
        simp at this
        exact this he
    · exact cleanInvalid_setE _ _ _ g3 (by intro hc; simp at hc)

theorem Inv_translate (cfg : Config) (pt : Nat → Op → Nat) (s : TLBState)
    (va : Nat) (op : Op) (h : Inv s) : Inv (tlb_translate cfg pt s va op).2 := by
  cases h1 : tlb_find s.tlb_l1 (va_to_vpn cfg va) with
  | some idx1 =>
    obtain ⟨hlt, hm⟩ := tlb_find_some s.tlb_l1 (va_to_vpn cfg va) idx1 h1
    obtain ⟨hval, _⟩ := (entryMatches_iff _ _).mp hm
    obtain ⟨g1, g2, g3, g4⟩ := h
    rw [translate_l1_hit_eq cfg pt s va op idx1 h1]
    refine ⟨?_, g2, ?_, g4⟩
    · exact uniq_setE_update _ _ _ g1 hlt hval rfl
    · exact cleanInvalid_setE _ _ _ g3 (by intro hc; simp [hval] at hc)
  | none =>
    cases h2 : tlb_find s.tlb_l2 (va_to_vpn cfg va) with
    | some idx2 =>
      obtain ⟨hlt, hm⟩ := tlb_find_some s.tlb_l2 (va_to_vpn cfg va) idx2 h2
      obtain ⟨hval, _⟩ := (entryMatches_iff _ _).mp hm
      obtain ⟨g1, g2, g3, g4⟩ := h
      rw [translate_l2_hit_eq cfg pt s va op idx2 h1 h2]
      refine Inv_l1_insert cfg _ _ _ _ ⟨g1, ?_, g3, ?_⟩
      · exact uniq_setE_update _ _ _ g2 hlt hval rfl
      · exact cleanInvalid_setE _ _ _ g4 (by intro hc; simp [hval] at hc)
    | none =>
      rw [translate_miss_miss_eq cfg pt s va op h1 h2]
      refine Inv_l2_insert cfg _ _ _ _ (Inv_l1_insert cfg _ _ _ _ ?_)
      exact h

theorem Inv_invalidate_l1 (cfg : Config) (s : TLBState) (v : Nat)
    (h : Inv s) : Inv (tlb_invalidate_l1 cfg s v) := by
  cases hf : tlb_find s.tlb_l1 v with
  | none => simpa [tlb_invalidate_l1, hf] using h
  | some i =>
    simp only [tlb_invalidate_l1, hf]
    by_cases hd : (getE s.tlb_l1 i).dirty = true
    · have hmid := Inv_l2_insert cfg s (getE s.tlb_l1 i).virtual_page_number
        (getE s.tlb_l1 i).physical_page_number true h
      obtain ⟨g1, g2, g3, g4⟩ := hmid
      rw [l2_insert_tlb_l1] at g1 g3
      simp only [hd, if_true]
      refine ⟨?_, g2, ?_, g4⟩
      · rw [l2_insert_tlb_l1]
        exact uniq_setE_invalid _ _ _ g1 rfl
      · rw [l2_insert_tlb_l1]
        exact cleanInvalid_setE _ _ _ g3 (fun _ => ⟨rfl, rfl⟩)
    · obtain ⟨g1, g2, g3, g4⟩ := h
      simp only [hd, if_false]
      exact ⟨uniq_setE_invalid _ _ _ g1 rfl, g2,
        cleanInvalid_setE _ _ _ g3 (fun _ => ⟨rfl, rfl⟩), g4⟩

theorem Inv_invalidate_l2 (cfg : Config) (s : TLBState) (v : Nat)
    (h : Inv s) : Inv (tlb_invalidate_l2 cfg s v) := by
  cases hf : tlb_find s.tlb_l2 v with
  | none => simpa [tlb_invalidate_l2, hf] using h
  | some i =>
    obtain ⟨g1, g2, g3, g4⟩ := h
    simp only [tlb_invalidate_l2, hf]
    by_cases hd : (getE s.tlb_l2 i).dirty = true
    · simp only [hd, if_true]
      exact ⟨g1, uniq_setE_invalid _ _ _ g2 rfl, g3,
        cleanInvalid_setE _ _ _ g4 (fun _ => ⟨rfl, rfl⟩)⟩
    · simp only [hd, if_false]
      exact ⟨g1, uniq_setE_invalid _ _ _ g2 rfl, g3,
        cleanInvalid_setE _ _ _ g4 (fun _ => ⟨rfl, rfl⟩)⟩

theorem Inv_invalidate (cfg : Config) (s : TLBState) (v : Nat)
    (h : Inv s) : Inv (tlb_invalidate cfg s v) := by
  unfold tlb_invalidate
  exact Inv_invalidate_l2 cfg _ v (Inv_invalidate_l1 cfg _ v h)

theorem Inv_init (cfg : Config) : Inv (tlb_init cfg) := by
  have h1 : ∀ i, getE (tlb_init cfg).tlb_l1 i = emptyEntry :=
    fun i => getE_replicate _ i
  have h2 : ∀ i, getE (tlb_init cfg).tlb_l2 i = emptyEntry :=
    fun i => getE_replicate _ i
  refine ⟨?_, ?_, ?_, ?_⟩
  · intro i j _ _ hv _ _
    rw [h1 i] at hv; simp [emptyEntry] at hv
  · intro i j _ _ hv _ _
    rw [h2 i] at hv; simp [emptyEntry] at hv
  · intro i _ _
    rw [h1 i]; exact ⟨rfl, rfl⟩
  · intro i _ _
    rw [h2 i]; exact ⟨rfl, rfl⟩

theorem Inv_runOps (cfg : Config) (pt : Nat → Op → Nat) (s : TLBState)
    (ops : List TLBOp) (h : Inv s) : Inv (runOps cfg pt s ops) := by
  induction ops generalizing s with
  | nil => exact h
  | cons o rest ih =>
    refine ih (runOp cfg pt s o) ?_
    cases o with
    | translateOp va op => exact Inv_translate cfg pt s va op h
    | invalidateOp v => exact Inv_invalidate cfg s v h

theorem reachable_Inv (cfg : Config) (pt : Nat → Op → Nat) (s : TLBState)
    (h : Reachable cfg pt s) : Inv s := by
  obtain ⟨ops, rfl⟩ := h
  exact Inv_runOps cfg pt (tlb_init cfg) ops (Inv_init cfg)

/-! ### Concrete configurations and states used by witnesses and counterexamples -/

/-- A generic configuration with nonzero latencies. -/
def cfgW : Config := ⟨12, 2, 2, 3, 5⟩

/-- A state of `cfgW` shape whose L1 holds a clean translation for VPN 1. -/
def sHit : TLBState :=
  { tlb_l1 := [⟨true, false, 5, 1, 7⟩, emptyEntry],
    tlb_l2 := [emptyEntry, emptyEntry],
    tlb_l1_hits := 0, tlb_l1_misses := 0, tlb_l1_invalidations := 0,
    tlb_l2_hits := 0, tlb_l2_misses := 0, tlb_l2_invalidations := 0,
    lru_tick := 5, lru_tick2 := 0, time := 0, writebacks := [], ptCalls := [] }

/-- A configuration whose L2 is smaller than its L1 (the C code fixes the
sizes in a header that is not part of the sources; both orderings are
possible).  Latencies are zero to keep the runs small. -/
def cfgC : Config := ⟨12, 2, 1, 0, 0⟩

/-- A reachable state of `cfgC`: after writes to pages 1 and 2, L1 holds
both dirty translations, L2 only holds page 2 (page 1 was evicted from L2
with a write-back), and L2 is full of valid dirty entries. -/
def sC : TLBState :=
  runOps cfgC ptId (tlb_init cfgC)
    [TLBOp.translateOp 4096 Op.OP_WRITE, TLBOp.translateOp 8192 Op.OP_WRITE]

/-- A reachable state of `cfgC` obtained by a write translation followed
by invalidation of its VPN: the invalidated slots keep their stale VPN and
PPN contents. -/
def sC5 : TLBState :=
  runOps cfgC ptId (tlb_init cfgC)
    [TLBOp.translateOp 4096 Op.OP_WRITE, TLBOp.invalidateOp 1]

/-! ### Path lemmas for the invalidate phases -/

theorem invalidate_l1_eq_dirty (cfg : Config) (s : TLBState) (v i : Nat)
    (hf : tlb_find s.tlb_l1 v = some i)
    (hd : (getE s.tlb_l1 i).dirty = true) :
    tlb_invalidate_l1 cfg s v =
      { l2_insert cfg s (getE s.tlb_l1 i).virtual_page_number
          (getE s.tlb_l1 i).physical_page_number true with
        tlb_l1 := setE (l2_insert cfg s (getE s.tlb_l1 i).virtual_page_number
          (getE s.tlb_l1 i).physical_page_number true).tlb_l1 i
          (resetE (getE s.tlb_l1 i)),
        tlb_l1_invalidations := (l2_insert cfg s
          (getE s.tlb_l1 i).virtual_page_number
          (getE s.tlb_l1 i).physical_page_number true).tlb_l1_invalidations + 1 } := by
  simp [tlb_invalidate_l1, hf, hd]

theorem invalidate_l2_eq_dirty (cfg : Config) (s : TLBState) (v i : Nat)
    (hf : tlb_find s.tlb_l2 v = some i)
    (hd : (getE s.tlb_l2 i).dirty = true) :
    tlb_invalidate_l2 cfg s v =
      { s with
        writebacks := s.writebacks ++
          [compose_pa cfg (getE s.tlb_l2 i).physical_page_number 0],
        tlb_l2 := setE s.tlb_l2 i (resetE (getE s.tlb_l2 i)),
        tlb_l2_invalidations := s.tlb_l2_invalidations + 1 } := by
  simp [tlb_invalidate_l2, hf, hd]

theorem l2_insert_time_writebacks (cfg : Config) (s : TLBState)
    (t v p : Nat) (d : Bool) :
    (l2_insert cfg { s with time := t } v p d).writebacks =
      (l2_insert cfg s v p d).writebacks := by
  cases hf : tlb_find s.tlb_l2 v <;>
    simp [l2_insert, hf, l2_evict_entry_eq]

/-! ### Claim C7 -/

/-- Claim C7: victim selection returns the lowest-index invalid slot when
one exists; otherwise the first slot attaining the minimal `last_access`
(strictly smaller than every earlier slot's).  Consequently, inserting
`N + 1` distinct VPNs in increasing access order into an initially empty
level of capacity `N` evicts the first-inserted VPN first: afterwards the
first VPN is no longer found while all later ones still are. -/
theorem victim_selection_lru :
    (∀ (l : List TLBEntry) (i : Nat), find_invalid l = some i →
      choose_victim l = i ∧ i < l.length ∧ (getE l i).valid = false ∧
      ∀ j, j < i → (getE l j).valid = true) ∧
    (∀ l : List TLBEntry, l ≠ [] → find_invalid l = none →
      choose_victim l < l.length ∧
      (∀ j, j < l.length →
        (getE l (choose_victim l)).last_access ≤ (getE l j).last_access) ∧
      (∀ j, j < choose_victim l →
        (getE l (choose_victim l)).last_access < (getE l j).last_access)) ∧
    (∀ (cfg : Config) (v0 : Nat) (mid : List Nat) (w : Nat),
      ((v0 :: mid) ++ [w]).Nodup →
      cfg.TLB_L1_SIZE = mid.length + 1 →
      tlb_find (l1_insertAll cfg (tlb_init cfg) ((v0 :: mid) ++ [w])).tlb_l1 v0
        = none ∧
      ∀ u ∈ mid ++ [w],
        (tlb_find (l1_insertAll cfg (tlb_init cfg) ((v0 :: mid) ++ [w])).tlb_l1 u).isSome
          = true) := by
  refine ⟨?_, ?_, ?_⟩
  · intro l i h
    obtain ⟨h1, h2, h3⟩ := find_invalid_some l i h
    exact ⟨choose_victim_invalid l i h, h1, h2, h3⟩
  · intro l hne hnone
    exact choose_victim_lru l hne hnone
  · intro cfg v0 mid w hnd hsz
    have hnd' : (v0 :: (mid ++ [w])).Nodup := by simpa using hnd
    obtain ⟨hv0notin, hndtail⟩ := List.nodup_cons.mp hnd'
    have hv0w : v0 ≠ w := by
      intro hc; exact hv0notin (by simp [hc])
    have hv0mid : v0 ∉ mid := by
      intro hc; exact hv0notin (by simp [hc])
    obtain ⟨hndfront, _, hdisj⟩ := List.nodup_append.mp hnd
    have hwnot : w ∉ v0 :: mid := by
      intro hc
      exact hdisj hc (by simp)
    obtain ⟨hl1', htick'⟩ := insertAll_fill cfg (v0 :: mid) (tlb_init cfg) [] 0
      (by show List.replicate cfg.TLB_L1_SIZE emptyEntry = _
          rw [hsz]
          simp)
      (by intro e he; simp at he)
      (by intro e he; simp at he)
      hndfront
    have hl1 : (l1_insertAll cfg (tlb_init cfg) (v0 :: mid)).tlb_l1 =
        fillPattern 0 (v0 :: mid) := by
      rw [hl1']
      show ([] ++ fillPattern (tlb_init cfg).lru_tick (v0 :: mid)) ++ [] = _
      simp
      rfl
    have htick : (l1_insertAll cfg (tlb_init cfg) (v0 :: mid)).lru_tick =
        mid.length + 1 := by
      rw [htick']
      show 0 + (v0 :: mid).length = _
      simp
    set sN := l1_insertAll cfg (tlb_init cfg) (v0 :: mid) with hsN
    have hsplit : l1_insertAll cfg (tlb_init cfg) ((v0 :: mid) ++ [w]) =
        l1_insert cfg sN w w false := by
      rw [l1_insertAll_append]
      rfl
    have hfindw : tlb_find sN.tlb_l1 w = none := by
      rw [hl1, tlb_find_none_iff_mem]
      intro e he
      obtain ⟨_, hm⟩ := mem_fillPattern 0 _ e he
      have hne : e.virtual_page_number ≠ w := by
        intro hc; rw [hc] at hm; exact hwnot hm
      simp [entryMatches, hne]
    have hinvN : find_invalid sN.tlb_l1 = none := by
      rw [hl1]
      exact find_invalid_none_of_all_valid _
        (fun e he => (mem_fillPattern 0 _ e he).1)
    have hvictN : choose_victim sN.tlb_l1 = 0 := by
      have hneN : sN.tlb_l1 ≠ [] := by
        rw [hl1]; simp [fillPattern]
      obtain ⟨hlt, _, hstrict⟩ := choose_victim_lru sN.tlb_l1 hneN hinvN
      by_contra h0
      have hpos : 0 < choose_victim sN.tlb_l1 := Nat.pos_of_ne_zero h0
      have hs0 := hstrict 0 hpos
      rw [hl1] at hs0 hlt
      rw [length_fillPattern] at hlt
      rw [getE_fillPattern_last 0 _ _ hlt,
        getE_fillPattern_last 0 _ 0 (by simp)] at hs0
      omega
    have htl1 : (l1_insert cfg sN w w false).tlb_l1 =
        ⟨true, false, sN.lru_tick + 1, w, w⟩ :: fillPattern 1 mid := by
      rw [l1_insert_fresh_tlb_l1 cfg sN w w false hfindw, hvictN, hl1]
      rfl
    rw [hsplit, htl1]
    constructor
    · rw [tlb_find_none_iff_mem]
      intro e he
      rcases List.mem_cons.mp he with rfl | htail
      · simp [entryMatches, Ne.symm hv0w]
      · obtain ⟨_, hm⟩ := mem_fillPattern 1 mid e htail
        have hne : e.virtual_page_number ≠ v0 := by
          intro hc; rw [hc] at hm; exact hv0mid hm
        simp [entryMatches, hne]
    · intro u hu
      rcases List.mem_append.mp hu with humid | huw
      · obtain ⟨e, he, hm⟩ := fillPattern_exists_match 1 mid u humid
        exact tlb_find_isSome_of_mem _ u e (List.mem_cons_of_mem _ he) hm
      · rw [List.mem_singleton.mp huw]
        exact tlb_find_isSome_of_mem _ w
          ⟨true, false, sN.lru_tick + 1, w, w⟩ (by simp) (by simp [entryMatches])

/-- Witness for claim C7: capacity 2, inserting the distinct VPNs
5, 6, 7 in order evicts VPN 5 first. -/
theorem victim_selection_lru_witness :
    ((5 :: [6]) ++ [7] : List Nat).Nodup ∧
    tlb_find (l1_insertAll cfgC (tlb_init cfgC) ((5 :: [6]) ++ [7])).tlb_l1 5
      = none :=
  ⟨by decide,
   (victim_selection_lru.2.2 cfgC 5 [6] 7 (by decide) (by decide)).1⟩

/-! ### Claim C10 -/

/-- Claim C10: invalidating a VPN held as a valid dirty L1 entry while L2
does not hold it first inserts the L1 copy into L2 as a fresh dirty entry
(the cascade may itself evict an L2 victim with its own write-back), and
the subsequent L2 scan then finds exactly that freshly inserted entry,
writes it back once with offset-0 addressing, resets the slot, and
increments the L2 invalidation counter — so both levels' invalidation
counters are incremented even though L2 did not hold the VPN initially. -/
theorem invalidate_dirty_l1_only (cfg : Config) (s : TLBState) (v i : Nat)
    (hf1 : tlb_find s.tlb_l1 v = some i)
    (hd : (getE s.tlb_l1 i).dirty = true)
    (hf2 : tlb_find s.tlb_l2 v = none)
    (hne2 : 0 < s.tlb_l2.length) :
    (tlb_invalidate cfg s v).tlb_l1_invalidations = s.tlb_l1_invalidations + 1 ∧
    (tlb_invalidate cfg s v).tlb_l2_invalidations = s.tlb_l2_invalidations + 1 ∧
    (tlb_invalidate cfg s v).writebacks =
      (l2_insert cfg s v (getE s.tlb_l1 i).physical_page_number true).writebacks ++
        [compose_pa cfg (getE s.tlb_l1 i).physical_page_number 0] ∧
    tlb_find (l2_insert cfg s v (getE s.tlb_l1 i).physical_page_number true).tlb_l2 v
      = some (choose_victim s.tlb_l2) ∧
    getE (tlb_invalidate cfg s v).tlb_l2 (choose_victim s.tlb_l2) =
      ⟨false, false, 0, v, (getE s.tlb_l1 i).physical_page_number⟩ ∧
    getE (tlb_invalidate cfg s v).tlb_l1 i = resetE (getE s.tlb_l1 i) := by
  have hvpn : (getE s.tlb_l1 i).virtual_page_number = v :=
    ((entryMatches_iff v _).mp (tlb_find_some s.tlb_l1 v i hf1).2).2
  have hi : i < s.tlb_l1.length := (tlb_find_some s.tlb_l1 v i hf1).1
  set p := (getE s.tlb_l1 i).physical_page_number with hp
  set s0 : TLBState :=
    { s with time := s.time + (cfg.TLB_L1_LATENCY_NS + cfg.TLB_L2_LATENCY_NS) }
    with hs0
  have hstep : tlb_invalidate cfg s v =
      tlb_invalidate_l2 cfg (tlb_invalidate_l1 cfg s0 v) v := rfl
  have hf1' : tlb_find s0.tlb_l1 v = some i := hf1
  have hd' : (getE s0.tlb_l1 i).dirty = true := hd
  have hf2' : tlb_find s0.tlb_l2 v = none := hf2
  have hne2' : 0 < s0.tlb_l2.length := hne2
  have hB := invalidate_l1_eq_dirty cfg s0 v i hf1' hd'
  have hvpn' : (getE s0.tlb_l1 i).virtual_page_number = v := hvpn
  have hp' : (getE s0.tlb_l1 i).physical_page_number = p := rfl
  rw [hvpn', hp'] at hB
  set sIns := l2_insert cfg s0 v p true with hsIns
  set V := choose_victim s0.tlb_l2 with hV
  have hfind2 : tlb_find sIns.tlb_l2 v = some V :=
    tlb_find_after_fresh_l2_insert cfg s0 v p true hf2' hne2'
  have hE : getE sIns.tlb_l2 V = ⟨true, true, s0.lru_tick2 + 1, v, p⟩ :=
    l2_insert_fresh_getE cfg s0 v p true hf2' hne2'
  set s1 : TLBState :=
    { sIns with
      tlb_l1 := setE sIns.tlb_l1 i (resetE (getE s0.tlb_l1 i)),
      tlb_l1_invalidations := sIns.tlb_l1_invalidations + 1 } with hs1
  have hfind2a : tlb_find s1.tlb_l2 v = some V := hfind2
  have hEa : getE s1.tlb_l2 V = ⟨true, true, s0.lru_tick2 + 1, v, p⟩ := hE
  have hd2 : (getE s1.tlb_l2 V).dirty = true := by rw [hEa]
  have hD := invalidate_l2_eq_dirty cfg s1 v V hfind2a hd2
  have hfin : tlb_invalidate cfg s v = tlb_invalidate_l2 cfg s1 v := by
    rw [hstep, hB]
  have hctrsIns := ctrs_fields (l2_insert_ctrs cfg s0 v p true)
  have hVlen : V < sIns.tlb_l2.length := by
    rw [hsIns, l2_insert_l2_length]
    exact choose_victim_lt s0.tlb_l2
      (by intro he
          rw [show s0.tlb_l2 = s.tlb_l2 from rfl] at he
          rw [he] at hne2; simp at hne2)
  refine ⟨?_, ?_, ?_, ?_, ?_, ?_⟩
  · rw [hfin, hD]
    show s1.tlb_l1_invalidations = s.tlb_l1_invalidations + 1
    show sIns.tlb_l1_invalidations + 1 = s.tlb_l1_invalidations + 1
    rw [hsIns, hctrsIns.2.2.1]
  · rw [hfin, hD]
    show s1.tlb_l2_invalidations + 1 = s.tlb_l2_invalidations + 1
    show sIns.tlb_l2_invalidations + 1 = s.tlb_l2_invalidations + 1
    rw [hsIns, hctrsIns.2.2.2.2.2]
  · rw [hfin, hD, hEa]
    show s1.writebacks ++ [compose_pa cfg p 0] = _
    show sIns.writebacks ++ [compose_pa cfg p 0] = _
    rw [hsIns, hs0, l2_insert_time_writebacks]
  · exact tlb_find_after_fresh_l2_insert cfg s v p true hf2 hne2
  · rw [hfin, hD, hEa]
    show getE (setE s1.tlb_l2 V (resetE ⟨true, true, s0.lru_tick2 + 1, v, p⟩))
      (choose_victim s.tlb_l2) = ⟨false, false, 0, v, p⟩
    have : getE (setE s1.tlb_l2 V (resetE ⟨true, true, s0.lru_tick2 + 1, v, p⟩)) V =
        resetE ⟨true, true, s0.lru_tick2 + 1, v, p⟩ :=
      getE_setE_eq _ _ _ hVlen
    exact this
  · rw [hfin, hD]
    show getE s1.tlb_l1 i = resetE (getE s.tlb_l1 i)
    show getE (setE sIns.tlb_l1 i (resetE (getE s0.tlb_l1 i))) i =
      resetE (getE s.tlb_l1 i)
    refine getE_setE_eq _ _ _ ?_
    rw [hsIns, l2_insert_tlb_l1]
    exact hi

/-- Witness for claim C10: in the reachable state `sC`, VPN 1 is a valid
dirty L1 entry absent from L2; invalidating it bumps both invalidation
counters. -/
theorem invalidate_dirty_l1_only_witness :
    tlb_find sC.tlb_l1 1 = some 0 ∧
    (tlb_invalidate cfgC sC 1).tlb_l1_invalidations =
      sC.tlb_l1_invalidations + 1 ∧
    (tlb_invalidate cfgC sC 1).tlb_l2_invalidations =
      sC.tlb_l2_invalidations + 1 :=
  ⟨by decide,
   (invalidate_dirty_l1_only cfgC sC 1 0 (by decide) (by decide)
     (by decide) (by decide)).1,
   (invalidate_dirty_l1_only cfgC sC 1 0 (by decide) (by decide)
     (by decide) (by decide)).2.1⟩

/-! ### Claim C4 -/

/-- Claim C4: in every state reachable from the initialized state by
translations and invalidations, each level holds at most one valid entry
per VPN. -/
theorem reachable_vpn_unique (cfg : Config) (pt : Nat → Op → Nat)
    (s : TLBState) (h : Reachable cfg pt s) :
    uniq s.tlb_l1 ∧ uniq s.tlb_l2 := by
  obtain ⟨g1, g2, _, _⟩ := reachable_Inv cfg pt s h
  exact ⟨g1, g2⟩

/-- Witness for claim C4 at the concrete reachable state `sC`: its two
valid L1 slots must hold distinct VPNs. -/
theorem reachable_vpn_unique_witness :
    (getE sC.tlb_l1 0).virtual_page_number ≠
      (getE sC.tlb_l1 1).virtual_page_number := by
  have h := reachable_vpn_unique cfgC ptId sC
    ⟨[TLBOp.translateOp 4096 Op.OP_WRITE, TLBOp.translateOp 8192 Op.OP_WRITE], rfl⟩
  intro he
  have := h.1 0 1 (by decide) (by decide) (by decide) (by decide) he
  simp at this

/-! ### Claim C5 -/

/-- Claim C5 counterexample: in the reachable state `sC5` slot 0 of L1 is
invalid, yet its VPN field still holds the stale value 1 — eviction and
invalidation reset only `valid`, `dirty` and `last_access`, never the VPN
or PPN fields. -/
theorem invalid_entry_stale_vpn :
    (getE sC5.tlb_l1 0).valid = false ∧
    (getE sC5.tlb_l1 0).virtual_page_number ≠ 0 :=
  ⟨by decide, by decide⟩

/-- Claim C5 (amended): in every reachable state, an invalid entry of
either level has `dirty = false` and `last_access = 0`; eviction resets
exactly the `valid`, `dirty` and `last_access` fields of the affected
slot (to false/false/0), leaving the VPN and PPN fields as they were. -/
theorem reachable_invalid_clean (cfg : Config) (pt : Nat → Op → Nat)
    (s : TLBState) (h : Reachable cfg pt s) :
    (cleanInvalid s.tlb_l1 ∧ cleanInvalid s.tlb_l2) ∧
    (∀ idx, idx < s.tlb_l1.length →
      getE (l1_evict_entry cfg s idx).tlb_l1 idx = resetE (getE s.tlb_l1 idx)) ∧
    (∀ idx, idx < s.tlb_l2.length →
      getE (l2_evict_entry cfg s idx).tlb_l2 idx = resetE (getE s.tlb_l2 idx)) := by
  obtain ⟨_, _, g3, g4⟩ := reachable_Inv cfg pt s h
  refine ⟨⟨g3, g4⟩, ?_, ?_⟩
  · intro idx hidx
    rw [l1_evict_entry_tlb_l1]
    exact getE_setE_eq _ _ _ hidx
  · intro idx hidx
    rw [l2_evict_entry_eq]
    exact getE_setE_eq _ _ _ hidx

/-- Witness for the amended claim C5: the invalidated slot of `sC5` has
its dirty flag and `last_access` cleared. -/
theorem reachable_invalid_clean_witness :
    (getE sC5.tlb_l1 0).dirty = false ∧ (getE sC5.tlb_l1 0).last_access = 0 :=
  (reachable_invalid_clean cfgC ptId sC5
    ⟨[TLBOp.translateOp 4096 Op.OP_WRITE, TLBOp.invalidateOp 1], rfl⟩).1.1
    0 (by decide) (by decide)

/-! ### Claim C3 -/

/-- Claim C3 counterexample: in the reachable state `sC`, slot 0 of L1 is
valid and dirty, and evicting it calls the external write-back sink — the
cascaded `l2_insert` must evict L2's valid dirty victim.  So "an L1
eviction never calls the external write-back sink" fails. -/
theorem l1_evict_calls_sink :
    ((getE sC.tlb_l1 0).valid && (getE sC.tlb_l1 0).dirty) = true ∧
    (l1_evict_entry cfgC sC 0).writebacks ≠ sC.writebacks :=
  ⟨by decide, by decide⟩

/-- Claim C3 (amended): evicting a valid dirty L1 slot inserts the evicted
(VPN, PPN) pair into L2 with `dirty = true` and resets the slot; every
sink interaction during the L1 eviction is exactly that of the cascaded
L2 insert, and none happens at all unless that insert must evict a valid
dirty L2 victim.  Evicting a valid dirty L2 slot hands exactly one
frame-aligned physical address (`compose_pa ppn 0`) to the sink and resets
the slot.  Evicting a clean slot of either level calls neither the sink
nor the next level. -/
theorem evict_writeback_routing (cfg : Config) (s : TLBState) (idx : Nat) :
    (((getE s.tlb_l1 idx).valid && (getE s.tlb_l1 idx).dirty) = true →
      ((l1_evict_entry cfg s idx).writebacks =
        (l2_insert cfg s (getE s.tlb_l1 idx).virtual_page_number
          (getE s.tlb_l1 idx).physical_page_number true).writebacks ∧
       (l1_evict_entry cfg s idx).tlb_l2 =
        (l2_insert cfg s (getE s.tlb_l1 idx).virtual_page_number
          (getE s.tlb_l1 idx).physical_page_number true).tlb_l2 ∧
       getE (l1_evict_entry cfg s idx).tlb_l1 idx = resetE (getE s.tlb_l1 idx) ∧
       (0 < s.tlb_l2.length →
         ∃ j t, j < (l1_evict_entry cfg s idx).tlb_l2.length ∧
           getE (l1_evict_entry cfg s idx).tlb_l2 j =
             ⟨true, true, t, (getE s.tlb_l1 idx).virtual_page_number,
               (getE s.tlb_l1 idx).physical_page_number⟩) ∧
       ((tlb_find s.tlb_l2 (getE s.tlb_l1 idx).virtual_page_number ≠ none ∨
         ((getE s.tlb_l2 (choose_victim s.tlb_l2)).valid &&
           (getE s.tlb_l2 (choose_victim s.tlb_l2)).dirty) = false) →
         (l1_evict_entry cfg s idx).writebacks = s.writebacks))) ∧
    (((getE s.tlb_l2 idx).valid && (getE s.tlb_l2 idx).dirty) = true →
      ((l2_evict_entry cfg s idx).writebacks =
        s.writebacks ++ [compose_pa cfg (getE s.tlb_l2 idx).physical_page_number 0] ∧
       getE (l2_evict_entry cfg s idx).tlb_l2 idx = resetE (getE s.tlb_l2 idx))) ∧
    (((getE s.tlb_l1 idx).valid && (getE s.tlb_l1 idx).dirty) = false →
      ((l1_evict_entry cfg s idx).writebacks = s.writebacks ∧
       (l1_evict_entry cfg s idx).tlb_l2 = s.tlb_l2)) ∧
    (((getE s.tlb_l2 idx).valid && (getE s.tlb_l2 idx).dirty) = false →
      (l2_evict_entry cfg s idx).writebacks = s.writebacks) := by
  refine ⟨?_, ?_, ?_, ?_⟩
  · intro hd
    have hval : (getE s.tlb_l1 idx).valid = true := by
      revert hd; cases (getE s.tlb_l1 idx).valid <;> simp
    have hlt : idx < s.tlb_l1.length := getE_valid_lt s.tlb_l1 idx hval
    refine ⟨?_, ?_, ?_, ?_, ?_⟩
    · simp only [l1_evict_entry, hd, if_true]
    · simp only [l1_evict_entry, hd, if_true]
    · simp only [l1_evict_entry, hd, if_true]
      rw [getE_setE_eq _ _ _ (by rw [l2_insert_tlb_l1]; exact hlt)]
    · intro hne
      obtain ⟨j, t, hj, hg⟩ := l2_insert_contains cfg s
        (getE s.tlb_l1 idx).virtual_page_number
        (getE s.tlb_l1 idx).physical_page_number hne
      refine ⟨j, t, ?_, ?_⟩ <;> simp only [l1_evict_entry, hd, if_true]
      · exact hj
      · exact hg
    · intro hcond
      simp only [l1_evict_entry, hd, if_true]
      rcases hcond with hfind | hclean
      · cases hf : tlb_find s.tlb_l2 (getE s.tlb_l1 idx).virtual_page_number with
        | none => exact absurd hf hfind
        | some k => exact l2_insert_writebacks_of_find cfg s _ _ true k hf
      · exact l2_insert_writebacks_of_clean_victim cfg s _ _ true hclean
  · intro hd
    have hval : (getE s.tlb_l2 idx).valid = true := by
      revert hd; cases (getE s.tlb_l2 idx).valid <;> simp
    have hlt : idx < s.tlb_l2.length := getE_valid_lt s.tlb_l2 idx hval
    constructor
    · simp [l2_evict_entry, hd]
    · rw [l2_evict_entry_eq]
      exact getE_setE_eq _ _ _ hlt
  · intro hd
    constructor <;> simp [l1_evict_entry, hd]
  · intro hd
    simp [l2_evict_entry, hd]

/-- Witness for the amended claim C3: at the concrete reachable state
`sC`, evicting the valid dirty L1 slot 0 routes exactly through the
cascaded L2 insert. -/
theorem evict_writeback_routing_witness :
    ((getE sC.tlb_l1 0).valid && (getE sC.tlb_l1 0).dirty) = true ∧
    (l1_evict_entry cfgC sC 0).writebacks =
      (l2_insert cfgC sC (getE sC.tlb_l1 0).virtual_page_number
        (getE sC.tlb_l1 0).physical_page_number true).writebacks :=
  ⟨by decide, ((evict_writeback_routing cfgC sC 0).1 (by decide)).1⟩

/-! ### Claim C9 -/

/-- Claim C9: composing the address decomposition back together is the
identity, `compose_pa (va_to_vpn va) (va_offset va) = va`; moreover the
extractors partition the address exactly at `PAGE_SIZE_BITS`:
the VPN is the quotient and the offset the remainder by `2 ^ PAGE_SIZE_BITS`. -/
theorem compose_decomposition_id (cfg : Config) (va : Nat) :
    compose_pa cfg (va_to_vpn cfg va) (va_offset cfg va) = va ∧
    va_to_vpn cfg va = va / 2 ^ cfg.PAGE_SIZE_BITS ∧
    va_offset cfg va = va % 2 ^ cfg.PAGE_SIZE_BITS := by
  refine ⟨?_, ?_, ?_⟩
  · show ((va >>> cfg.PAGE_SIZE_BITS) <<< cfg.PAGE_SIZE_BITS) |||
      (va &&& (2 ^ cfg.PAGE_SIZE_BITS - 1)) = va
    apply Nat.eq_of_testBit_eq
    intro i
    simp only [Nat.testBit_or, Nat.testBit_shiftLeft, Nat.testBit_shiftRight,
      Nat.testBit_and]
    rcases Nat.lt_or_ge i cfg.PAGE_SIZE_BITS with h | h
    · simp [Nat.not_le.mpr h, Nat.testBit_two_pow_sub_one, h]
    · simp [h, Nat.add_sub_cancel' h, Nat.testBit_two_pow_sub_one, Nat.not_lt.mpr h]
  · exact Nat.shiftRight_eq_div_pow va cfg.PAGE_SIZE_BITS
  · show va &&& (2 ^ cfg.PAGE_SIZE_BITS - 1) = va % 2 ^ cfg.PAGE_SIZE_BITS
    apply Nat.eq_of_testBit_eq
    intro i
    simp only [Nat.testBit_and, Nat.testBit_mod_two_pow, Nat.testBit_two_pow_sub_one]
    cases Nat.decLt i cfg.PAGE_SIZE_BITS with
    | isTrue h => simp [h]
    | isFalse h => simp [h]

/-! ### Claim C8 -/

/-- Claim C8: invalidating a VPN held by no valid entry of either level
charges the fixed maintenance cost (the sum of both access latencies) to
the simulated clock and changes nothing else: the resulting state is the
old state with only `time` advanced. -/
theorem invalidate_absent_frame (cfg : Config) (s : TLBState) (v : Nat)
    (h1 : tlb_find s.tlb_l1 v = none) (h2 : tlb_find s.tlb_l2 v = none) :
    tlb_invalidate cfg s v =
      { s with time := s.time + (cfg.TLB_L1_LATENCY_NS + cfg.TLB_L2_LATENCY_NS) } := by
  simp [tlb_invalidate, tlb_invalidate_l1, tlb_invalidate_l2, h1, h2]

/-- Witness for claim C8 at a concrete state: VPN 9 is absent from the
freshly initialized state, and invalidating it only advances the clock. -/
theorem invalidate_absent_frame_witness :
    tlb_find (tlb_init cfgW).tlb_l1 9 = none ∧
    tlb_find (tlb_init cfgW).tlb_l2 9 = none ∧
    tlb_invalidate cfgW (tlb_init cfgW) 9 =
      { tlb_init cfgW with
        time := (tlb_init cfgW).time +
          (cfgW.TLB_L1_LATENCY_NS + cfgW.TLB_L2_LATENCY_NS) } :=
  ⟨by decide, by decide,
    invalidate_absent_frame cfgW (tlb_init cfgW) 9 (by decide) (by decide)⟩

/-! ### Claim C1 -/

/-- Claim C1 counterexample: on an L1 hit the simulated clock — an
external collaborator consulted by every operation — is still advanced by
the L1 access latency, so the conjunct "no external collaborator is
touched" fails on the code as soon as the latency is nonzero. -/
theorem translate_l1_hit_touches_clock :
    tlb_find sHit.tlb_l1 (va_to_vpn cfgW 4096) = some 0 ∧
    (tlb_translate cfgW ptId sHit 4096 Op.OP_READ).2.time ≠ sHit.time := by
  exact ⟨by decide, by decide⟩

/-- Claim C1 (amended): on an L1 hit, the translation returns the cached
PPN composed with the original page offset, and the new state is the old
one with exactly: the L1 hit counter incremented, the L1 logical clock
incremented and stamped into the hit entry's `last_access`, the entry
marked dirty when the access is a write, and the simulated clock charged
the L1 latency.  In particular no L2 state, no L2 counter, neither the
resolver nor the write-back sink is touched. -/
theorem translate_l1_hit (cfg : Config) (pt : Nat → Op → Nat) (s : TLBState)
    (va : Nat) (op : Op) (idx : Nat)
    (h : tlb_find s.tlb_l1 (va_to_vpn cfg va) = some idx) :
    (tlb_translate cfg pt s va op).1 =
      compose_pa cfg (getE s.tlb_l1 idx).physical_page_number (va_offset cfg va) ∧
    (tlb_translate cfg pt s va op).2 =
      { s with
        tlb_l1 := setE s.tlb_l1 idx
          { getE s.tlb_l1 idx with
            last_access := s.lru_tick + 1,
            dirty := if op = Op.OP_WRITE then true else (getE s.tlb_l1 idx).dirty },
        tlb_l1_hits := s.tlb_l1_hits + 1,
        lru_tick := s.lru_tick + 1,
        time := s.time + cfg.TLB_L1_LATENCY_NS } ∧
    getE (tlb_translate cfg pt s va op).2.tlb_l1 idx =
      { getE s.tlb_l1 idx with
        last_access := s.lru_tick + 1,
        dirty := if op = Op.OP_WRITE then true else (getE s.tlb_l1 idx).dirty } := by
  have hb := (tlb_find_some s.tlb_l1 (va_to_vpn cfg va) idx h).1
  refine ⟨?_, ?_, ?_⟩
  · rw [translate_l1_hit_eq cfg pt s va op idx h]
  · rw [translate_l1_hit_eq cfg pt s va op idx h]
  · rw [translate_l1_hit_eq cfg pt s va op idx h]
    exact getE_setE_eq s.tlb_l1 idx _ hb

/-! ### Claim C2 -/

/-- Claim C2: on a double miss, the L2 miss counter is incremented, the
resolver is called exactly once with the original virtual address and
access kind (recorded in `ptCalls`), the returned value is the resolver's
physical address itself, and the PPN derived from it is inserted into both
levels, valid, with `dirty = true` exactly when the access is a write. -/
theorem translate_double_miss (cfg : Config) (pt : Nat → Op → Nat)
    (s : TLBState) (va : Nat) (op : Op)
    (h1 : tlb_find s.tlb_l1 (va_to_vpn cfg va) = none)
    (h2 : tlb_find s.tlb_l2 (va_to_vpn cfg va) = none)
    (hne1 : 0 < s.tlb_l1.length) (hne2 : 0 < s.tlb_l2.length) :
    (tlb_translate cfg pt s va op).1 = pt va op ∧
    (tlb_translate cfg pt s va op).2.ptCalls = s.ptCalls ++ [(va, op)] ∧
    (tlb_translate cfg pt s va op).2.tlb_l2_misses = s.tlb_l2_misses + 1 ∧
    (∃ i, i < (tlb_translate cfg pt s va op).2.tlb_l1.length ∧
      getE (tlb_translate cfg pt s va op).2.tlb_l1 i =
        ⟨true, op == Op.OP_WRITE, s.lru_tick + 1, va_to_vpn cfg va,
          pa_to_ppn cfg (pt va op)⟩) ∧
    (∃ j t, j < (tlb_translate cfg pt s va op).2.tlb_l2.length ∧
      getE (tlb_translate cfg pt s va op).2.tlb_l2 j =
        ⟨true, op == Op.OP_WRITE, t, va_to_vpn cfg va,
          pa_to_ppn cfg (pt va op)⟩) := by
  rw [translate_miss_miss_eq cfg pt s va op h1 h2]
  set v := va_to_vpn cfg va with hv
  set p := pa_to_ppn cfg (pt va op) with hp
  set d := (op == Op.OP_WRITE) with hd
  set sMid : TLBState :=
    { s with
      tlb_l1_misses := s.tlb_l1_misses + 1,
      tlb_l2_misses := s.tlb_l2_misses + 1,
      time := s.time + cfg.TLB_L1_LATENCY_NS + cfg.TLB_L2_LATENCY_NS,
      ptCalls := s.ptCalls ++ [(va, op)] } with hsMid
  have hMid1 : sMid.tlb_l1 = s.tlb_l1 := rfl
  have hMid2 : sMid.tlb_l2 = s.tlb_l2 := rfl
  set sA := l1_insert cfg sMid v p d with hsA
  refine ⟨rfl, ?_, ?_, ?_, ?_⟩
  · rw [l2_insert_ptCalls, l1_insert_ptCalls]
  · obtain ⟨_, _, _, _, e5, _⟩ := ctrs_fields (l1_insert_ctrs cfg sMid v p d)
    obtain ⟨_, _, _, _, f5, _⟩ := ctrs_fields (l2_insert_ctrs cfg sA v p d)
    rw [f5, e5]
  · refine ⟨choose_victim s.tlb_l1, ?_, ?_⟩
    · rw [l2_insert_tlb_l1, l1_insert_l1_length, hMid1]
      exact choose_victim_lt s.tlb_l1 (by intro he; rw [he] at hne1; simp at hne1)
    · rw [l2_insert_tlb_l1]
      have := l1_insert_fresh_getE cfg sMid v p d (by rw [hMid1]; exact h1)
        (by rw [hMid1]; exact hne1)
      rw [hMid1] at this
      exact this
  · have hA2 : noValidVPN sA.tlb_l2 v := by
      refine l1_insert_l2_noValidVPN cfg sMid p d v ?_ ?_
      · rw [hMid1]; exact (tlb_find_none_iff s.tlb_l1 v).mp h1
      · rw [hMid2]; exact (tlb_find_none_iff s.tlb_l2 v).mp h2
    have hfA : tlb_find sA.tlb_l2 v = none := (tlb_find_none_iff _ v).mpr hA2
    have hlenA : 0 < sA.tlb_l2.length := by
      rw [hsA, l1_insert_l2_length, hMid2]; exact hne2
    refine ⟨choose_victim sA.tlb_l2, sA.lru_tick2 + 1, ?_, ?_⟩
    · rw [l2_insert_l2_length]
      exact choose_victim_lt sA.tlb_l2 (by intro he; rw [he] at hlenA; simp at hlenA)
    · exact l2_insert_fresh_getE cfg sA v p d hfA hlenA

/-- Witness for claim C2: a double miss on the freshly initialized state. -/
theorem translate_double_miss_witness :
    tlb_find (tlb_init cfgW).tlb_l1 (va_to_vpn cfgW 4096) = none ∧
    tlb_find (tlb_init cfgW).tlb_l2 (va_to_vpn cfgW 4096) = none ∧
    (tlb_translate cfgW ptId (tlb_init cfgW) 4096 Op.OP_WRITE).1 =
      ptId 4096 Op.OP_WRITE ∧
    (tlb_translate cfgW ptId (tlb_init cfgW) 4096 Op.OP_WRITE).2.ptCalls =
      (tlb_init cfgW).ptCalls ++ [(4096, Op.OP_WRITE)] ∧
    (tlb_translate cfgW ptId (tlb_init cfgW) 4096 Op.OP_WRITE).2.tlb_l2_misses =
      (tlb_init cfgW).tlb_l2_misses + 1 :=
  ⟨by decide, by decide,
   (translate_double_miss cfgW ptId (tlb_init cfgW) 4096 Op.OP_WRITE
     (by decide) (by decide) (by decide) (by decide)).1,
   (translate_double_miss cfgW ptId (tlb_init cfgW) 4096 Op.OP_WRITE
     (by decide) (by decide) (by decide) (by decide)).2.1,
   (translate_double_miss cfgW ptId (tlb_init cfgW) 4096 Op.OP_WRITE
     (by decide) (by decide) (by decide) (by decide)).2.2.1⟩

/-! ### Claim C6 -/

/-- Claim C6: all six counters are monotonically non-decreasing over every
operation sequence, and each `tlb_translate` call increments exactly one
of L1 hits / L1 misses; on an L1 miss it additionally increments exactly
one of L2 hits / L2 misses, and on an L1 hit no L2 counter moves (the
invalidation counters never move during a translation). -/
theorem counters_discipline (cfg : Config) (pt : Nat → Op → Nat) :
    (∀ s ops, counterLe s (runOps cfg pt s ops)) ∧
    (∀ s va op,
      ((tlb_translate cfg pt s va op).2.tlb_l1_hits = s.tlb_l1_hits + 1 ∧
       (tlb_translate cfg pt s va op).2.tlb_l1_misses = s.tlb_l1_misses ∧
       (tlb_translate cfg pt s va op).2.tlb_l2_hits = s.tlb_l2_hits ∧
       (tlb_translate cfg pt s va op).2.tlb_l2_misses = s.tlb_l2_misses ∧
       (tlb_translate cfg pt s va op).2.tlb_l1_invalidations = s.tlb_l1_invalidations ∧
       (tlb_translate cfg pt s va op).2.tlb_l2_invalidations = s.tlb_l2_invalidations) ∨
      ((tlb_translate cfg pt s va op).2.tlb_l1_hits = s.tlb_l1_hits ∧
       (tlb_translate cfg pt s va op).2.tlb_l1_misses = s.tlb_l1_misses + 1 ∧
       (tlb_translate cfg pt s va op).2.tlb_l1_invalidations = s.tlb_l1_invalidations ∧
       (tlb_translate cfg pt s va op).2.tlb_l2_invalidations = s.tlb_l2_invalidations ∧
       (((tlb_translate cfg pt s va op).2.tlb_l2_hits = s.tlb_l2_hits + 1 ∧
         (tlb_translate cfg pt s va op).2.tlb_l2_misses = s.tlb_l2_misses) ∨
        ((tlb_translate cfg pt s va op).2.tlb_l2_hits = s.tlb_l2_hits ∧
         (tlb_translate cfg pt s va op).2.tlb_l2_misses = s.tlb_l2_misses + 1)))) :=
  ⟨fun s ops => runOps_counterLe cfg pt s ops,
   fun s va op => translate_ctrs_cases cfg pt s va op⟩

/-- Witness for the amended claim C1: a concrete L1 write hit. -/
theorem translate_l1_hit_witness :
    tlb_find sHit.tlb_l1 (va_to_vpn cfgW 4096) = some 0 ∧
    (tlb_translate cfgW ptId sHit 4096 Op.OP_WRITE).1 =
      compose_pa cfgW (getE sHit.tlb_l1 0).physical_page_number (va_offset cfgW 4096) ∧
    (tlb_translate cfgW ptId sHit 4096 Op.OP_WRITE).2 =
      { sHit with
        tlb_l1 := setE sHit.tlb_l1 0
          { getE sHit.tlb_l1 0 with
            last_access := sHit.lru_tick + 1,
            dirty := if Op.OP_WRITE = Op.OP_WRITE then true
              else (getE sHit.tlb_l1 0).dirty },
        tlb_l1_hits := sHit.tlb_l1_hits + 1,
        lru_tick := sHit.lru_tick + 1,
        time := sHit.time + cfgW.TLB_L1_LATENCY_NS } :=
  ⟨by decide,
    (translate_l1_hit cfgW ptId sHit 4096 Op.OP_WRITE 0 (by decide)).1,
    (translate_l1_hit cfgW ptId sHit 4096 Op.OP_WRITE 0 (by decide)).2.1⟩

end TLB
